import Mathlib

/-
Verification development for the cnc-ctrl repository (a GRBL streaming
controller written in Rust).  The Rust sources are embedded shallowly:
pure string processing becomes Lean functions on `String` (represented by
its `List Char` data), the stateful streaming loop of
`src/controller/serial.rs` becomes an explicit state machine over
`SState`, and channel communication is modelled by explicit response and
push schedules.  Machine integers (`u8`, `usize`, `i32`) are modelled as
`Nat` with explicit bounds where the source can overflow; `f32`/`f64`
values are modelled as exact rationals (`Rat`), since no verified claim
depends on floating-point rounding.
-/

set_option maxRecDepth 8000

namespace CncCtrl

/-! String toolkit.  Rust's `str` operations are modelled on the
character list underlying a Lean `String`.  Rust's `len()` (UTF-8 byte
count) is modelled by `String.utf8ByteSize`, which agrees with it on all
inputs. -/

/-- Whitespace predicate used by Rust's `str::trim` restricted to ASCII:
space, tab, line feed, vertical tab, form feed, carriage return.
(Non-ASCII Unicode whitespace is not modelled; all wire content of this
program is ASCII.) -/
def isWsA (c : Char) : Bool :=
  c = ' ' || c = '\t' || c = '\n' || c = '\x0b' || c = '\x0c' || c = '\r'

/-- Model of Rust `str::trim`: remove leading and trailing whitespace. -/
def trimStr (s : String) : String :=
  String.mk (((s.data.dropWhile isWsA).reverse.dropWhile isWsA).reverse)

/-- Model of Rust `str::starts_with` for string patterns. -/
def startsWithStr (s pat : String) : Bool :=
  pat.data.isPrefixOf s.data

/-- Model of Rust `str::ends_with` for string patterns. -/
def endsWithStr (s pat : String) : Bool :=
  pat.data.isSuffixOf s.data

/-- Drop the first `n` characters (models `strip_prefix` once the match is
known, e.g. dropping `"error:"` is `dropStr s 6`; the dropped pattern is
always ASCII so characters and bytes agree). -/
def dropStr (s : String) (n : Nat) : String :=
  String.mk (s.data.drop n)

/-- Drop the last `n` characters (models `strip_suffix` once the match is
known, e.g. stripping a trailing `" IN"` is `dropRightStr s 3`). -/
def dropRightStr (s : String) (n : Nat) : String :=
  String.mk (s.data.take (s.data.length - n))

/-- Substring test on character lists; models Rust `str::contains` with a
string pattern. -/
def hasSub (hay pat : List Char) : Bool :=
  pat.isPrefixOf hay ||
    match hay with
    | [] => false
    | _ :: t => hasSub t pat

/-- Model of Rust `str::split(sep)`: split a character list at every
occurrence of `sep`; an empty input yields one empty piece, exactly as in
Rust. -/
def splitCh (sep : Char) : List Char → List (List Char)
  | [] => [[]]
  | c :: t =>
    match splitCh sep t with
    | [] => [[]]
    | h :: r => if c = sep then [] :: h :: r else (c :: h) :: r

/-- Numeric value of a digit string (most significant digit first). -/
def natOfDigits (l : List Char) : Nat :=
  l.foldl (fun n c => 10 * n + (c.toNat - 48)) 0

/-- Model of Rust `u8::from_str` (`"<digits>".parse::<u8>()`): an optional
leading `+`, then a non-empty digit string whose value fits in eight bits;
everything else (including overflow) is a parse error, modelled as
`none`. -/
def parseU8 (s : String) : Option Nat :=
  let d := match s.data with
    | '+' :: t => t
    | d => d
  if d ≠ [] ∧ d.all Char.isDigit then
    let n := natOfDigits d
    if n ≤ 255 then some n else none
  else none

/-- Model of Rust `usize::from_str` on a 64-bit target: an optional
leading `+`, then a non-empty digit string whose value fits in 64 bits. -/
def parseUsize (s : String) : Option Nat :=
  let d := match s.data with
    | '+' :: t => t
    | d => d
  if d ≠ [] ∧ d.all Char.isDigit then
    let n := natOfDigits d
    if n < 2 ^ 64 then some n else none
  else none

/-! Numeric parsing.  Rust float parsing (`"...".parse::<f32>()`) is
modelled on the finite-decimal part of its grammar
(`Sign? (Digit+ | Digit+ . Digit* | Digit* . Digit+) ([eE] Sign? Digit+)?`),
with exact rational values; the `inf`/`nan` spellings Rust also accepts
are treated as unparseable here (no claim exercises them), and rounding
to `f32` is not modelled (no claim depends on it). -/

/-- Exact rational value of a decimal: `sgn * base * 10 ^ net` where
`net` may be negative (computed with `mkRat` so that it evaluates by
kernel reduction). -/
def ratOfDecimal (sgn : Int) (base : Nat) (net : Int) : Rat :=
  if 0 ≤ net then mkRat (sgn * ((base * 10 ^ net.toNat : Nat) : Int)) 1
  else mkRat (sgn * (base : Int)) (10 ^ (-net).toNat)

/-- Model of Rust `f32::from_str` restricted to finite decimals (see the
section comment above). -/
def parseNum (s : String) : Option Rat :=
  let sd : Int × List Char :=
    match s.data with
    | '+' :: t => (1, t)
    | '-' :: t => (-1, t)
    | d => (1, d)
  let mantissa := sd.2.takeWhile fun c => !(c == 'e') && !(c == 'E')
  let rest := sd.2.drop mantissa.length
  let intPart := mantissa.takeWhile Char.isDigit
  let afterInt := mantissa.drop intPart.length
  let frac : Option (List Char) :=
    match afterInt with
    | [] => if intPart.isEmpty then none else some []
    | '.' :: fr =>
      if fr.all Char.isDigit && (!intPart.isEmpty || !fr.isEmpty) then some fr else none
    | _ => none
  match frac with
  | none => none
  | some fr =>
    let expVal : Option Int :=
      match rest with
      | [] => some 0
      | _ :: er =>
        let ed : Int × List Char :=
          match er with
          | '+' :: t => (1, t)
          | '-' :: t => (-1, t)
          | t => (1, t)
        if !ed.2.isEmpty && ed.2.all Char.isDigit then
          some (ed.1 * (natOfDigits ed.2 : Int))
        else none
    match expVal with
    | none => none
    | some e =>
      some (ratOfDecimal sd.1 (natOfDigits (intPart ++ fr)) (e - (fr.length : Int)))

/-! Message codec of src/controller.rs (lines 30-123) and src/message.rs
(lines 5-93); the two files define the same parser, so one embedding
covers both.  The status-report parser of src/controller/message.rs
(lines 130-202) differs only in turning the status word into an enum and
keeping the raw line, and shares the field-parsing core below. -/

/-- Shape test for the status-report regex
`^<([A-Za-z]+)(\|[^>]*)*>$` shared by controller.rs line 50, message.rs
line 54 and controller/message.rs line 159: an angle-bracketed body whose
first `|`-segment is one or more ASCII letters and whose body contains no
`>`. -/
def reportShape (s : String) : Bool :=
  match s.data with
  | '<' :: rest =>
    match rest.getLast? with
    | some '>' =>
      let interior := rest.dropLast
      (match splitCh '|' interior with
       | [] => false
       | h :: _ => !h.isEmpty && h.all Char.isAlpha) &&
        interior.all fun c => !(c == '>')
    | _ => false
  | _ => false

/-- Field-parsing loop shared by the three `Report::try_from`
implementations (controller/message.rs lines 177-198 and its twins): fold
over the segments after the status word, taking machine position from an
`MPos:` segment with at least three components and buffer counters from a
`Bf:` segment with at least two, each component defaulting to zero when
it does not parse (`unwrap_or`). -/
def reportFold (parts : List (List Char)) :
    Option (Rat × Rat × Rat) × Option (Nat × Nat) :=
  parts.foldl
    (fun acc part =>
      if "MPos:".data.isPrefixOf part then
        match splitCh ',' (part.drop 5) with
        | c0 :: c1 :: c2 :: _ =>
          (some ((parseNum (String.mk c0)).getD 0, (parseNum (String.mk c1)).getD 0,
             (parseNum (String.mk c2)).getD 0), acc.2)
        | _ => acc
      else if "Bf:".data.isPrefixOf part then
        match splitCh ',' (part.drop 3) with
        | b0 :: b1 :: _ =>
          (acc.1, some ((parseUsize (String.mk b0)).getD 0, (parseUsize (String.mk b1)).getD 0))
        | _ => acc
      else acc)
    (none, none)

/-- Report of src/controller.rs lines 30-44 (also src/message.rs lines
34-48): status kept as the raw word. -/
structure CtrlReport where
  status : Option String
  mpos : Option (Rat × Rat × Rat)
  bf : Option (Nat × Nat)
deriving DecidableEq, Repr

/-- Model of `Report::try_from` in src/controller.rs lines 46-89 (also
src/message.rs lines 50-93). -/
def ctrlReportTryFrom (value : String) : Option CtrlReport :=
  if reportShape value then
    let interior := (value.data.drop 1).dropLast
    let parts := splitCh '|' interior
    let pr := reportFold (parts.drop 1)
    some { status := some (String.mk (parts.headD [])), mpos := pr.1, bf := pr.2 }
  else none

/-- Response of src/controller.rs lines 102-105. -/
inductive CtrlResponse where
  | ok
  | err (code : Nat)
deriving DecidableEq, Repr

/-- Push of src/controller.rs lines 107-109. -/
inductive CtrlPush where
  | report (r : CtrlReport)
deriving DecidableEq, Repr

/-- Message of src/controller.rs lines 96-100. -/
inductive CtrlMessage where
  | response (r : CtrlResponse)
  | push (p : CtrlPush)
  | unknown (raw : String)
deriving DecidableEq, Repr

/-- Model of `Message::from` in src/controller.rs lines 111-123 (also
src/message.rs lines 20-32).  The `ok` branch tests `value.contains("ok")`
(a substring test, not equality), and the `error:` branch calls
`code.parse::<u8>().unwrap()`, which panics when the digits do not fit in
a `u8`; the panic is modelled as `none` (every non-panicking path returns
`some`). -/
def controllerMessageFrom (value : String) : Option CtrlMessage :=
  if hasSub value.data "ok".data then some (.response .ok)
  else if startsWithStr value "error:" then
    match parseU8 (dropStr value 6) with
    | some n => some (.response (.err n))
    | none => none
  else
    match ctrlReportTryFrom value with
    | some r => some (.push (.report r))
    | none => some (.unknown value)

/-- Status of src/controller/message.rs lines 137-142. -/
inductive Status where
  | idle
  | home
  | jog
  | unknown
deriving DecidableEq, Repr

/-- Model of `Status::from` in src/controller/message.rs lines 144-153. -/
def statusFrom (s : String) : Status :=
  if s = "Idle" then .idle
  else if s = "Home" then .home
  else if s = "Jog" then .jog
  else .unknown

/-- Report of src/controller/message.rs lines 130-135. -/
structure Report where
  raw : String
  status : Option Status
  mpos : Option (Rat × Rat × Rat)
  bf : Option (Nat × Nat)
deriving DecidableEq, Repr

/-- Model of `Report::try_from` in src/controller/message.rs lines
155-202. -/
def reportTryFrom (value : String) : Option Report :=
  if reportShape value then
    let interior := (value.data.drop 1).dropLast
    let parts := splitCh '|' interior
    let pr := reportFold (parts.drop 1)
    some { raw := value, status := some (statusFrom (String.mk (parts.headD []))),
           mpos := pr.1, bf := pr.2 }
  else none

/-- Response of src/controller/message.rs lines 35-43; probe coordinates
are `f64` in the source, modelled as rationals. -/
inductive Response where
  | ok
  | error (code : Nat)
  | probe (raw : String) (coords : Rat × Rat × Rat)
deriving DecidableEq, Repr

/-! Message codec of src/connection/message.rs (lines 1-144), the newest
rewrite of the codec.  Its regexes are embedded as decidable shape tests
on the character list; the `RegExp` construction-failure variant of its
error type is not modelled (the source regexes are constant and valid). -/

/-- Parse error of src/connection/message.rs lines 6-19 (minus the
regex-construction variant). -/
inductive ConnParseErr where
  | invalidErrorCode (raw : String)
  | invalidAlarmCode (raw : String)
  | unknownFormat (raw : String)
deriving DecidableEq, Repr

/-- Response of src/connection/message.rs lines 27-31. -/
inductive ConnResponse where
  | ok
  | error (code : Nat)
deriving DecidableEq, Repr

/-- Report of src/connection/message.rs lines 39-41. -/
structure ConnReport where
  status : String
deriving DecidableEq, Repr

/-- Feedback of src/connection/message.rs lines 43-46. -/
structure Feedback where
  kind : String
  data : String
deriving DecidableEq, Repr

/-- Push of src/connection/message.rs lines 33-37. -/
inductive ConnPush where
  | alarm (code : Nat)
  | report (r : ConnReport) (raw : String)
  | feedback (f : Feedback) (raw : String)
deriving DecidableEq, Repr

/-- Message of src/connection/message.rs lines 21-25. -/
inductive ConnMessage where
  | response (r : ConnResponse)
  | push (p : ConnPush)
  | unknown (raw : String)
deriving DecidableEq, Repr

/-- Shape test for `^error:(\d+)$` (src/connection/message.rs line 81). -/
def errorForm (s : String) : Bool :=
  startsWithStr s "error:" &&
    (let d := s.data.drop 6
     !d.isEmpty && d.all Char.isDigit)

/-- Shape test for `^ALARM:(\d+)$` (src/connection/message.rs line 103). -/
def alarmForm (s : String) : Bool :=
  startsWithStr s "ALARM:" &&
    (let d := s.data.drop 6
     !d.isEmpty && d.all Char.isDigit)

/-- Shape test for `^<([^,|>]+)(?:\|([^>]*))?>$` (src/connection/message.rs
line 105): an angle-bracketed body whose first segment is non-empty and
free of commas, pipes and closing brackets, optionally followed by one
pipe and arbitrary `>`-free content. -/
def connReportForm (s : String) : Bool :=
  match s.data with
  | '<' :: rest =>
    match rest.getLast? with
    | some '>' =>
      let interior := rest.dropLast
      let seg1 := interior.takeWhile fun c => !(c == '|')
      let after := interior.drop seg1.length
      !seg1.isEmpty && (seg1.all fun c => !(c == ',') && !(c == '>')) &&
        (after.isEmpty || after.tail.all fun c => !(c == '>'))
    | _ => false
  | _ => false

/-- Shape test for `^\[(MSG|GC|PRB|TLO|G\d+):[^\]]*\]$`
(src/connection/message.rs line 107). -/
def feedbackForm (s : String) : Bool :=
  match s.data with
  | '[' :: rest =>
    match rest.getLast? with
    | some ']' =>
      let content := rest.dropLast
      let key := content.takeWhile fun c => !(c == ':')
      let after := content.drop key.length
      !after.isEmpty && (content.all fun c => !(c == ']')) &&
        (key == "MSG".data || key == "GC".data || key == "PRB".data || key == "TLO".data ||
          (match key with
           | 'G' :: d => !d.isEmpty && d.all Char.isDigit
           | _ => false))
    | _ => false
  | _ => false

/-- Model of `Response::try_from` in src/connection/message.rs lines
77-97: exactly `"ok"` parses to `Ok`; `error:<digits>` parses to
`Error(n)` when the digits fit in a `u8` and fails with
`InvalidErrorCode` otherwise; everything else is `UnknownFormat`. -/
def connResponseTryFrom (value : String) : Except ConnParseErr ConnResponse :=
  if value = "ok" then .ok .ok
  else if errorForm value then
    let n := natOfDigits (value.data.drop 6)
    if n ≤ 255 then .ok (.error n) else .error (.invalidErrorCode value)
  else .error (.unknownFormat value)

/-- Model of `Push::try_from` in src/connection/message.rs lines 99-143.
The source maps an overflowing alarm code to `InvalidErrorCode` (line
115), and takes feedback `data` from `parts[1]` of a full `split(":")`,
so data stops at a second colon (lines 130-136). -/
def connPushTryFrom (value : String) : Except ConnParseErr ConnPush :=
  if alarmForm value then
    let n := natOfDigits (value.data.drop 6)
    if n ≤ 255 then .ok (.alarm n) else .error (.invalidErrorCode value)
  else if connReportForm value then
    let interior := (value.data.drop 1).dropLast
    let parts := splitCh '|' interior
    .ok (.report { status := String.mk (parts.headD []) } value)
  else if feedbackForm value then
    let content := (value.data.drop 1).dropLast
    let parts := splitCh ':' content
    .ok (.feedback { kind := String.mk (parts.headD []),
                     data := String.mk (parts.getD 1 []) } value)
  else .error (.unknownFormat value)

/-- Model of `Message::from` in src/connection/message.rs lines 65-75:
try `Response`, then `Push`, then fall back to `Unknown` with the
verbatim line. -/
def connMessageFrom (value : String) : ConnMessage :=
  match connResponseTryFrom value with
  | .ok r => .response r
  | .error _ =>
    match connPushTryFrom value with
    | .ok p => .push p
    | .error _ => .unknown value

/-! Streaming engine of src/controller/serial.rs.

`buffered_stream` (lines 64-157) is embedded as a state machine.  Channel
communication is replaced by explicit schedules, reflecting the channel
semantics of the controller of src/controller.rs (lines 142-211):

* `rs` is the sequence of responses that the controller will put on the
  `serial_channel`, in order — the controller acknowledges each line sent
  on the serial channel with exactly one response, so entry `i` of `rs`
  answers the `i`-th line written on the channel.  A blocking
  `serial_rx.recv()` succeeds once an answered-but-unconsumed response
  exists; receiving when every written line is already acknowledged (or
  when the schedule is exhausted) blocks forever, modelled by the
  `.error` branch carrying the state at the moment of blocking.
* `owed` counts lines that were written on the same channel before
  `buffered_stream` was entered and are still unacknowledged (0 for a
  stand-alone stream; 1 when check mode was entered with an unawaited
  `$C`, whose `ok` the stream will consume).
* `pushes` is the sequence of `Push::Report` values delivered to
  `wait_for_report` while it listens on the priority channel (reports
  pushed while nobody listens are dropped by the source's `try_send` and
  so never appear here).  The 200 ms `?`-polling writer of
  `wait_for_report` is time-driven and writes no blocks; it is not
  modelled.  The process-wide `running` flag is modelled as always true.

The fields `queued`, `received`, `sent`, `responses` and `pushes` mirror
`bytes_queued`, `received_count`, `sent_count`, `responses` and the
priority channel of the source (`received_count`/`sent_count` are `i32`
there, but never negative, so `Nat` is used).  The remaining fields are
instrumentation, not source state: `trace` records the I/O events in
order, `inflight` the byte lengths of written-but-unacknowledged lines,
`maxWire` the largest value ever taken by the wire occupancy
`Σ (len+1)` over those lines (each line is written as `line\n`, line 166
of src/controller.rs), and `maxNoNl` the largest value of `Σ len`. -/

/-- One I/O event of the streaming engine: a block line written (the wire
adds one `\n` byte), one response consumed from the serial channel, a
report returned by `wait_for_report`, or a machine position written to
the output file (the source formats it as `x,y,z\n`, line 137-143 of
src/controller/serial.rs; the event keeps the exact triple). -/
inductive Ev where
  | send (line : String)
  | recv
  | report (r : Report)
  | point (p : Rat × Rat × Rat)
deriving DecidableEq, Repr

/-- State of the `buffered_stream` embedding; see the section comment for
the correspondence with src/controller/serial.rs. -/
structure SState where
  queued : List Nat
  received : Nat
  sent : Nat
  responses : List (Nat × Response)
  pushes : List Report
  trace : List Ev
  inflight : List Nat
  maxWire : Nat
  maxNoNl : Nat
deriving DecidableEq, Repr

/-- Model of the `receive` closure of src/controller/serial.rs lines
83-96: block on `serial_rx.recv()` (the `.error` branch models waiting
for a response that can never arrive), then increment `received_count`,
pop the front of `bytes_queued`, and record `(received_count, response)`.
The instrumentation list `inflight` is popped alongside. -/
def recvStep (owed : Nat) (rs : List Response) (st : SState) : Except SState SState :=
  if h : st.received < st.sent + owed ∧ st.received < rs.length then
    .ok { st with
      received := st.received + 1,
      queued := st.queued.tail,
      inflight := st.inflight.tail,
      responses := st.responses ++ [(st.received + 1, rs.get ⟨st.received, h.2⟩)],
      trace := st.trace ++ [Ev.recv] }
  else .error st

/-- Structurally recursive engine of the flow-control loop, indexed by a
fuel bound.  Every successful `recvStep` consumes one entry of the
response schedule, so a fuel of `rs.length + 1 - st.received` (used by
`flowLoop` below and re-established at every recursive call) can never
run out on the loop's own calls; the fuel-zero case (reachable only when
`received > rs.length`, where a receive necessarily blocks) returns what
the loop would return there.  The explicit fuel keeps the definition
structurally recursive so that concrete runs evaluate by kernel
reduction. -/
def flowGo (rx owed : Nat) (rs : List Response) : Nat → SState → Except SState SState
  | 0, st => if rx ≤ st.queued.sum then .error st else .ok st
  | fuel + 1, st =>
    if rx ≤ st.queued.sum then
      match recvStep owed rs st with
      | .error st' => .error st'
      | .ok st' => flowGo rx owed rs fuel st'
    else .ok st

/-- Model of the flow-control loop of src/controller/serial.rs lines
108-110: `while bytes_queued.iter().sum() >= rx_buffer_size { receive }`. -/
def flowLoop (rx owed : Nat) (rs : List Response) (st : SState) : Except SState SState :=
  flowGo rx owed rs (rs.length + 1 - st.received) st

/-- Structurally recursive engine of the final drain, with the same fuel
discipline as `flowGo`. -/
def drainGo (owed : Nat) (rs : List Response) : Nat → SState → Except SState SState
  | 0, st => if st.received < st.sent then .error st else .ok st
  | fuel + 1, st =>
    if st.received < st.sent then
      match recvStep owed rs st with
      | .error st' => .error st'
      | .ok st' => drainGo owed rs fuel st'
    else .ok st

/-- Model of the final drain of src/controller/serial.rs lines 152-154:
`while sent_count > received_count { receive }`. -/
def drainLoop (owed : Nat) (rs : List Response) (st : SState) : Except SState SState :=
  drainGo owed rs (rs.length + 1 - st.received) st

/-- Shape test for the jog regex `^\$J=.* IN$` of src/controller/serial.rs
line 76, applied to the already-trimmed line.  When both the prefix
`$J=` and the suffix ` IN` are present they cannot overlap (character 2
would have to be both `=` and a space), so the regex is equivalent to
this prefix-and-suffix test. -/
def jogMatch (s : String) : Bool :=
  startsWithStr s "$J=" && endsWithStr s " IN"

/-- The line actually written for a raw input line, per
src/controller/serial.rs lines 99-104: trim, and additionally strip the
trailing `" IN"` from an interruptible jog line. -/
def lineOf (raw : String) : String :=
  let t := trimStr raw
  if jogMatch t then dropRightStr t 3 else t

/-- Byte length of the written line (`line.len()` in the source). -/
def lineLen (raw : String) : Nat :=
  (lineOf raw).utf8ByteSize

/-- The report predicate of src/controller/serial.rs lines 122-131: the
report has status `Idle` and some machine position. -/
def matchIdle (r : Report) : Bool :=
  (r.status == some Status.idle) && r.mpos.isSome

/-- Model of `wait_for_report` (src/controller/serial.rs lines 16-62)
with the `running` flag held true: read reports from the priority
channel, discarding those that fail the predicate, and return the first
match together with the rest of the push schedule; an exhausted schedule
means waiting forever (`none`). -/
def waitForReport (pred : Report → Bool) : List Report → Option (Report × List Report)
  | [] => none
  | r :: rest => if pred r then some (r, rest) else waitForReport pred rest

/-- State change of writing the current line
(src/controller/serial.rs lines 112-117): `sent_count` increments, and
the instrumentation records the newly in-flight line and the occupancy
maxima (`Σ (len+1)` is `sum + length` of the in-flight lengths, since the
wire adds one `\n` per line). -/
def sendUpdate (line : String) (st : SState) : SState :=
  { st with
    sent := st.sent + 1,
    inflight := st.inflight ++ [line.utf8ByteSize],
    trace := st.trace ++ [Ev.send line],
    maxWire := max st.maxWire
      ((st.inflight ++ [line.utf8ByteSize]).sum + (st.inflight ++ [line.utf8ByteSize]).length),
    maxNoNl := max st.maxNoNl (st.inflight ++ [line.utf8ByteSize]).sum }

/-- The interruptible-line tail of the loop body
(src/controller/serial.rs lines 119-149): wait for an idle report with a
machine position, then append that position to the output file when one
was given.  Waiting forever (no matching report ever arrives) is the
`.error` outcome. -/
def jogWait (hasFile : Bool) (st : SState) : Except SState SState :=
  match waitForReport matchIdle st.pushes with
  | none => .error st
  | some (r, rest) =>
    .ok { st with
      pushes := rest,
      trace := st.trace ++ [Ev.report r] ++
        (if hasFile then [Ev.point (r.mpos.getD (0, 0, 0))] else []) }

/-- One iteration of the `for raw_line in gcode` loop of
src/controller/serial.rs lines 98-150: compute the written line, push its
byte length onto `bytes_queued`, run the flow-control loop, send the line,
and run the interruptible tail when the trimmed raw line matches the jog
regex. -/
def stepLine (rx owed : Nat) (rs : List Response) (hasFile : Bool)
    (st : SState) (raw : String) : Except SState SState :=
  match flowLoop rx owed rs { st with queued := st.queued ++ [lineLen raw] } with
  | .error st' => .error st'
  | .ok st' =>
    if jogMatch (trimStr raw) then jogWait hasFile (sendUpdate (lineOf raw) st')
    else .ok (sendUpdate (lineOf raw) st')

/-- The initial state of a `buffered_stream` call
(src/controller/serial.rs lines 77-81). -/
def initState (pushes : List Report) : SState :=
  { queued := [], received := 0, sent := 0, responses := [], pushes := pushes,
    trace := [], inflight := [], maxWire := 0, maxNoNl := 0 }

/-- Model of `buffered_stream` (src/controller/serial.rs lines 64-157):
run the per-line loop over the G-code lines, then drain the remaining
responses; the result carries the final state (whose `responses` field is
the returned list), and `.error` carries the state at which the source
would block forever on `recv`. -/
def bufferedStream (gcode : List String) (rx : Nat) (rs : List Response)
    (pushes : List Report) (owed : Nat) (hasFile : Bool) : Except SState SState :=
  match List.foldlM (stepLine rx owed rs hasFile) (initState pushes) gcode with
  | .error st => .error st
  | .ok st => drainLoop owed rs st

/-- Final state of either outcome. -/
def stateOf : Except SState SState → SState
  | .ok st => st
  | .error st => st

/-- The block lines written on the wire, in order, read off a trace. -/
def sentLines (tr : List Ev) : List String :=
  tr.filterMap fun e =>
    match e with
    | .send s => some s
    | _ => none

/-- Responses list of a completed stream. -/
def okResponses : Except SState SState → Option (List (Nat × Response))
  | .ok st => some st.responses
  | .error _ => none

/-- Largest wire occupancy `Σ (len+1)` over unacknowledged lines reached
during a run (completed or blocked). -/
def maxWireOf (r : Except SState SState) : Nat :=
  (stateOf r).maxWire

/-- Sent lines and responses of a completed stream. -/
def okView : Except SState SState → Option (List String × List (Nat × Response))
  | .ok st => some (sentLines st.trace, st.responses)
  | .error _ => none

/-- Error filter of src/controller/serial.rs responses as used by the
check paths (`Response::Error(_)` pattern of src/steps/gcode.rs lines
68-74 and src/main.rs lines 102-108). -/
def isErr : Response → Bool
  | .error _ => true
  | _ => false

/-- Model of the check path of `execute_gcode_step` (src/steps/gcode.rs
lines 55-99; src/main.rs lines 89-123 is the same structure): send the
block `$C` on the serial channel without awaiting its response, stream
the G-code in the same channel (so the controller's `ok` for `$C` is one
extra owed response, `owed = 1`, consumed by the stream's own counting),
send `$C` again without awaiting, and keep the `(index, response)` pairs
whose response is an `Error`.  The result carries the event trace of the
whole check (the two `$C` sends around the stream trace) and the error
list. -/
def gcodeCheck (gcode : List String) (rx : Nat) (rs : List Response)
    (pushes : List Report) : Except SState (List Ev × List (Nat × Response)) :=
  match bufferedStream gcode rx rs pushes 1 false with
  | .error st => .error st
  | .ok st =>
    .ok (Ev.send "$C" :: st.trace ++ [Ev.send "$C"],
      st.responses.filter fun p => isErr p.2)

/-- Error list of a completed check. -/
def errsOf : Except SState (List Ev × List (Nat × Response)) → Option (List (Nat × Response))
  | .ok p => some p.2
  | .error _ => none

/-- Trace of a completed check. -/
def checkTraceOf : Except SState (List Ev × List (Nat × Response)) → Option (List Ev)
  | .ok p => some p.1
  | .error _ => none

/-! Send worker and stream of src/connection.rs, and the streaming task
of src/task.rs. -/

/-- Realtime byte set of src/connection/command.rs lines 9-19. -/
inductive RealtimeCmd where
  | reset
  | stop
  | report
  | cycleStart
  | feedHold
  | parserStateReport
  | fullReport
deriving DecidableEq, Repr

/-- Byte values of src/connection/command.rs lines 9-19. -/
def RealtimeCmd.toByte : RealtimeCmd → Nat
  | .reset => 0x18
  | .stop => 0x19
  | .report => 0x80
  | .cycleStart => 0x81
  | .feedHold => 0x82
  | .parserStateReport => 0x83
  | .fullReport => 0x87

/-- Command as pattern-matched by the send worker of src/connection.rs
(line 101 destructures `Command::Block(ref block, ref sequence)`, so in
that revision a block carries a line and an optional sequence number). -/
inductive WCmd where
  | realtime (r : RealtimeCmd)
  | block (line : String) (seq : Option Nat)
deriving DecidableEq, Repr

/-- Realtime test on worker commands. -/
def WCmd.isRT : WCmd → Bool
  | .realtime _ => true
  | .block .. => false

/-- Model of the submission-draining loop of the send worker
(src/connection.rs lines 81-91): each command received from the
submission channel is pushed to the front of `queued` if it is a
Realtime, and to the back if it is a Block. -/
def drainQueue (cmds : List WCmd) (queued : List WCmd) : List WCmd :=
  cmds.foldl
    (fun q c =>
      match c with
      | .realtime _ => c :: q
      | .block .. => q ++ [c])
    queued

/-- Model of the `buffered_bytes` fold of src/connection.rs lines 93-96:
sum `len+1` over the Block commands of `sent`. -/
def bufferedBytesOf (sent : List WCmd) : Nat :=
  sent.foldl
    (fun sum c =>
      match c with
      | .block line _ => sum + (line.utf8ByteSize + 1)
      | .realtime _ => sum)
    0

/-- Model of the dispatch of src/connection.rs lines 98-138 (transport
writes assumed to succeed): pop the front of `queued`; a Block is written
and appended to `sent` only when `buffered_bytes + len + 1 < 1023`,
otherwise it is pushed back to the front unwritten; a Realtime is always
written.  Returns the written commands, the remaining queue and the new
`sent` list. -/
def dispatchOnce (queued sent : List WCmd) : List WCmd × List WCmd × List WCmd :=
  let buffered := bufferedBytesOf sent
  match queued with
  | [] => ([], [], sent)
  | c :: rest =>
    match c with
    | .block line _ =>
      if buffered + (line.utf8ByteSize + 1) < 1023 then ([c], rest, sent ++ [c])
      else ([], c :: rest, sent)
    | .realtime _ => ([c], rest, sent)

/-- Model of the send worker of src/connection.rs lines 77-141 as
written: drain the whole submission sequence into `queued` (the `loop`
of lines 81-91 only ends when the channel closes), then perform the one
dispatch of lines 93-138 with the still-empty `sent` list. -/
def sendWorker (cmds : List WCmd) : List WCmd × List WCmd × List WCmd :=
  dispatchOnce (drainQueue cmds []) []

/-- Command of src/connection/command.rs lines 3-7 (as used by
`ActiveConnection::stream` and src/task.rs). -/
inductive CCmd where
  | realtime (r : RealtimeCmd)
  | block (line : String)
deriving DecidableEq, Repr

/-- Block test on commands. -/
def CCmd.isBlock : CCmd → Bool
  | .block _ => true
  | .realtime _ => false

/-- Model of the submission loop of `ActiveConnection::stream`
(src/connection.rs lines 184-194): walk the command list, submitting
every Block (paired with a fresh reply channel) and skipping every
Realtime; returns the submitted commands in order and the number of
reply receivers created. -/
def connStreamSetup (cmds : List CCmd) : List CCmd × Nat :=
  cmds.foldl
    (fun acc c =>
      match c with
      | .block _ => (acc.1 ++ [c], acc.2 + 1)
      | .realtime _ => acc)
    ([], 0)

/-- Model of the collection loop of `ActiveConnection::stream`
(src/connection.rs lines 196-199): `for (index, rx) in
receivers.iter().enumerate() { responses.push((index, rx.recv()?)) }`,
given the reply each receiver yields. -/
def connStreamCollectFrom (i : Nat) : List ConnMessage → List (Nat × ConnMessage)
  | [] => []
  | m :: t => (i, m) :: connStreamCollectFrom (i + 1) t

/-- The response list of `ActiveConnection::stream` for replies `replies`. -/
def connStreamCollect (replies : List ConnMessage) : List (Nat × ConnMessage) :=
  connStreamCollectFrom 0 replies

/-- Model of the submission loop of the `stream` closure in src/task.rs
lines 74-93: every Block is submitted (after checking the running flag,
whose clearing aborts the stream), every Realtime is skipped. -/
def taskStreamSubmitted (running : Bool) (cmds : List CCmd) : Except Unit (List CCmd) :=
  List.foldlM
    (fun acc c =>
      match c with
      | CCmd.block _ => if running then .ok (acc ++ [c]) else .error ()
      | CCmd.realtime _ => .ok acc)
    ([] : List CCmd) cmds

/-- Error test on connection messages (`Message::Response(Response::Error(_))`
pattern of src/task.rs line 109). -/
def isConnErr : ConnMessage → Bool
  | .response (.error _) => true
  | _ => false

/-- Model of the error filter of the check path of src/task.rs lines
105-112: enumerate the collected messages (0-based), keep the errors,
and report each with index + 1. -/
def taskCheckErrors (msgs : List ConnMessage) : List (Nat × ConnMessage) :=
  msgs.enum.filterMap fun p => if isConnErr p.2 then some (p.1 + 1, p.2) else none

/-- Submission-level trace of the check path of src/task.rs lines
95-133, assuming one reply per block: send `$C` and await its reply
(line 100), submit every block then collect one reply each (the `stream`
closure), send `$C` and await its reply (line 114). -/
def taskCheckTrace (blocks : List String) : List Ev :=
  [Ev.send "$C", Ev.recv] ++ blocks.map Ev.send ++ blocks.map (fun _ => Ev.recv) ++
    [Ev.send "$C", Ev.recv]

/-- Invariant of the streaming machine between loop iterations: the
source's `bytes_queued` holds exactly the lengths of the
written-but-unacknowledged lines, the counters are linked by
`sent = received + inflight.length`, and the recorded responses are the
consumed prefix of the schedule paired with 1-based indices. -/
def MInv (rs : List Response) (st : SState) : Prop :=
  st.queued = st.inflight ∧
  st.sent = st.received + st.inflight.length ∧
  st.responses = (rs.take st.received).enumFrom 1

/-- Invariant inside the flow-control loop, where `bytes_queued`
additionally holds the length `cur` of the current not-yet-written line
at its back. -/
def FInv (rs : List Response) (cur : Nat) (st : SState) : Prop :=
  st.queued = st.inflight ++ [cur] ∧
  st.sent = st.received + st.inflight.length ∧
  st.responses = (rs.take st.received).enumFrom 1

/-- Streamable input: no line is an interruptible jog line and every
written line is shorter than the receive buffer. -/
def fineLines (gcode : List String) (rx : Nat) : Prop :=
  ∀ l ∈ gcode, jogMatch (trimStr l) = false ∧ lineLen l < rx

instance (gcode : List String) (rx : Nat) : Decidable (fineLines gcode rx) := by
  unfold fineLines
  infer_instance

/-! Helper lemmas about the streaming machine. -/

lemma recvStep_ok {owed : Nat} {rs : List Response} {st st' : SState}
    (h : recvStep owed rs st = .ok st') :
    st.received < st.sent + owed ∧
    ∃ hlt : st.received < rs.length,
      st' = { st with
        received := st.received + 1,
        queued := st.queued.tail,
        inflight := st.inflight.tail,
        responses := st.responses ++ [(st.received + 1, rs.get ⟨st.received, hlt⟩)],
        trace := st.trace ++ [Ev.recv] } := by
  unfold recvStep at h
  split at h
  · rename_i hc
    injection h with h1
    exact ⟨hc.1, hc.2, h1.symm⟩
  · exact Except.noConfusion h

lemma recvStep_err {owed : Nat} {rs : List Response} {st st' : SState}
    (h : recvStep owed rs st = .error st') : st' = st := by
  unfold recvStep at h
  split at h
  · exact Except.noConfusion h
  · injection h with h1
    exact h1.symm

lemma recvStep_succeeds {owed : Nat} {rs : List Response} {st : SState}
    (h1 : st.received < st.sent + owed) (h2 : st.received < rs.length) :
    ∃ st', recvStep owed rs st = .ok st' := by
  unfold recvStep
  rw [dif_pos (⟨h1, h2⟩ : _ ∧ _)]
  exact ⟨_, rfl⟩

lemma responses_step {rs : List Response} {n : Nat} (hlt : n < rs.length) :
    (rs.take n).enumFrom 1 ++ [(n + 1, rs.get ⟨n, hlt⟩)] = (rs.take (n + 1)).enumFrom 1 := by
  rw [List.take_succ, List.getElem?_eq_getElem hlt, List.enumFrom_append]
  simp [List.length_take, Nat.min_eq_left (Nat.le_of_lt hlt), List.enumFrom,
    Nat.add_comm 1 n]

lemma flowGo_zero {rx owed : Nat} {rs : List Response} {st : SState} :
    flowGo rx owed rs 0 st =
      if rx ≤ st.queued.sum then .error st else .ok st := rfl

lemma flowGo_succ {rx owed : Nat} {rs : List Response} {fuel : Nat} {st : SState} :
    flowGo rx owed rs (fuel + 1) st =
      if rx ≤ st.queued.sum then
        match recvStep owed rs st with
        | .error st' => .error st'
        | .ok st' => flowGo rx owed rs fuel st'
      else .ok st := by
  conv_lhs => unfold flowGo

lemma drainGo_zero {owed : Nat} {rs : List Response} {st : SState} :
    drainGo owed rs 0 st =
      if st.received < st.sent then .error st else .ok st := rfl

lemma drainGo_succ {owed : Nat} {rs : List Response} {fuel : Nat} {st : SState} :
    drainGo owed rs (fuel + 1) st =
      if st.received < st.sent then
        match recvStep owed rs st with
        | .error st' => .error st'
        | .ok st' => drainGo owed rs fuel st'
      else .ok st := by
  conv_lhs => unfold drainGo

lemma flowLoop_step_err {rx owed : Nat} {rs : List Response} {st st2 : SState}
    (hg : rx ≤ st.queued.sum) (h2 : recvStep owed rs st = .error st2) :
    flowLoop rx owed rs st = .error st2 := by
  have hst2 := recvStep_err h2
  unfold flowLoop
  cases hn : rs.length + 1 - st.received with
  | zero =>
    show flowGo rx owed rs 0 st = _
    rw [flowGo_zero]
    rw [if_pos hg, hst2]
  | succ n =>
    show flowGo rx owed rs (n + 1) st = _
    rw [flowGo_succ]
    rw [if_pos hg, h2]

lemma flowLoop_step_ok {rx owed : Nat} {rs : List Response} {st st2 : SState}
    (hg : rx ≤ st.queued.sum) (h2 : recvStep owed rs st = .ok st2) :
    flowLoop rx owed rs st = flowLoop rx owed rs st2 := by
  obtain ⟨hlt1, hlt2, hst2⟩ := recvStep_ok h2
  have hf : rs.length + 1 - st.received = (rs.length + 1 - st2.received) + 1 := by
    rw [hst2]
    dsimp only
    omega
  unfold flowLoop
  rw [hf]
  show flowGo rx owed rs ((rs.length + 1 - st2.received) + 1) st = _
  rw [flowGo_succ, if_pos hg, h2]

lemma flowLoop_exit {rx owed : Nat} {rs : List Response} {st : SState}
    (hg : ¬ rx ≤ st.queued.sum) :
    flowLoop rx owed rs st = .ok st := by
  unfold flowLoop
  cases hn : rs.length + 1 - st.received with
  | zero =>
    show flowGo rx owed rs 0 st = _
    rw [flowGo_zero]
    rw [if_neg hg]
  | succ n =>
    show flowGo rx owed rs (n + 1) st = _
    rw [flowGo_succ]
    rw [if_neg hg]

lemma drainLoop_step_err {owed : Nat} {rs : List Response} {st st2 : SState}
    (hg : st.received < st.sent) (h2 : recvStep owed rs st = .error st2) :
    drainLoop owed rs st = .error st2 := by
  have hst2 := recvStep_err h2
  unfold drainLoop
  cases hn : rs.length + 1 - st.received with
  | zero =>
    show drainGo owed rs 0 st = _
    rw [drainGo_zero]
    rw [if_pos hg, hst2]
  | succ n =>
    show drainGo owed rs (n + 1) st = _
    rw [drainGo_succ]
    rw [if_pos hg, h2]

lemma drainLoop_step_ok {owed : Nat} {rs : List Response} {st st2 : SState}
    (hg : st.received < st.sent) (h2 : recvStep owed rs st = .ok st2) :
    drainLoop owed rs st = drainLoop owed rs st2 := by
  obtain ⟨hlt1, hlt2, hst2⟩ := recvStep_ok h2
  have hf : rs.length + 1 - st.received = (rs.length + 1 - st2.received) + 1 := by
    rw [hst2]
    dsimp only
    omega
  unfold drainLoop
  rw [hf]
  show drainGo owed rs ((rs.length + 1 - st2.received) + 1) st = _
  rw [drainGo_succ, if_pos hg, h2]

lemma drainLoop_exit {owed : Nat} {rs : List Response} {st : SState}
    (hg : ¬ st.received < st.sent) :
    drainLoop owed rs st = .ok st := by
  unfold drainLoop
  cases hn : rs.length + 1 - st.received with
  | zero =>
    show drainGo owed rs 0 st = _
    rw [drainGo_zero]
    rw [if_neg hg]
  | succ n =>
    show drainGo owed rs (n + 1) st = _
    rw [drainGo_succ]
    rw [if_neg hg]

lemma flowLoop_ind (rx owed : Nat) (rs : List Response) (motive : SState → Prop)
    (case1 : ∀ st, rx ≤ st.queued.sum →
      ∀ st2, recvStep owed rs st = .error st2 → motive st)
    (case2 : ∀ st, rx ≤ st.queued.sum →
      ∀ st2, recvStep owed rs st = .ok st2 → motive st2 → motive st)
    (case3 : ∀ st, ¬ rx ≤ st.queued.sum → motive st) :
    ∀ st, motive st := by
  have H : ∀ (n : Nat) (st : SState), rs.length - st.received ≤ n → motive st := by
    intro n
    induction n with
    | zero =>
      intro st hle
      by_cases hg : rx ≤ st.queued.sum
      · cases h2 : recvStep owed rs st with
        | error st2 => exact case1 st hg st2 h2
        | ok st2 =>
          obtain ⟨-, hlt, -⟩ := recvStep_ok h2
          exact absurd hlt (by omega)
      · exact case3 st hg
    | succ n ih =>
      intro st hle
      by_cases hg : rx ≤ st.queued.sum
      · cases h2 : recvStep owed rs st with
        | error st2 => exact case1 st hg st2 h2
        | ok st2 =>
          obtain ⟨-, hlt, hst2⟩ := recvStep_ok h2
          refine case2 st hg st2 h2 (ih st2 ?_)
          rw [hst2]
          dsimp only
          omega
      · exact case3 st hg
  intro st
  exact H (rs.length - st.received) st le_rfl

lemma drainLoop_ind (owed : Nat) (rs : List Response) (motive : SState → Prop)
    (case1 : ∀ st, st.received < st.sent →
      ∀ st2, recvStep owed rs st = .error st2 → motive st)
    (case2 : ∀ st, st.received < st.sent →
      ∀ st2, recvStep owed rs st = .ok st2 → motive st2 → motive st)
    (case3 : ∀ st, ¬ st.received < st.sent → motive st) :
    ∀ st, motive st := by
  have H : ∀ (n : Nat) (st : SState), rs.length - st.received ≤ n → motive st := by
    intro n
    induction n with
    | zero =>
      intro st hle
      by_cases hg : st.received < st.sent
      · cases h2 : recvStep owed rs st with
        | error st2 => exact case1 st hg st2 h2
        | ok st2 =>
          obtain ⟨-, hlt, -⟩ := recvStep_ok h2
          exact absurd hlt (by omega)
      · exact case3 st hg
    | succ n ih =>
      intro st hle
      by_cases hg : st.received < st.sent
      · cases h2 : recvStep owed rs st with
        | error st2 => exact case1 st hg st2 h2
        | ok st2 =>
          obtain ⟨-, hlt, hst2⟩ := recvStep_ok h2
          refine case2 st hg st2 h2 (ih st2 ?_)
          rw [hst2]
          dsimp only
          omega
      · exact case3 st hg
  intro st
  exact H (rs.length - st.received) st le_rfl

lemma flowLoop_shape {rx owed : Nat} {rs : List Response} :
    ∀ st : SState,
      (∃ k, (stateOf (flowLoop rx owed rs st)).trace = st.trace ++ List.replicate k Ev.recv) ∧
      (stateOf (flowLoop rx owed rs st)).pushes = st.pushes ∧
      (stateOf (flowLoop rx owed rs st)).sent = st.sent ∧
      (stateOf (flowLoop rx owed rs st)).maxWire = st.maxWire ∧
      (stateOf (flowLoop rx owed rs st)).maxNoNl = st.maxNoNl ∧
      ∀ st', flowLoop rx owed rs st = .ok st' → st'.queued.sum < rx := by
  intro st
  induction st using flowLoop_ind rx owed rs with
  | case1 st hg st2 h2 =>
    have hst2 : st2 = st := recvStep_err h2
    rw [flowLoop_step_err hg h2]
    subst hst2
    refine ⟨⟨0, by simp [stateOf]⟩, rfl, rfl, rfl, rfl, ?_⟩
    intro st' h
    exact Except.noConfusion h
  | case2 st hg st2 h2 ih =>
    obtain ⟨hlt1, hlt2, hst2⟩ := recvStep_ok h2
    obtain ⟨⟨k, htr⟩, hpu, hse, hmw, hmn, hok⟩ := ih
    rw [flowLoop_step_ok hg h2]
    refine ⟨⟨k + 1, ?_⟩, ?_, ?_, ?_, ?_, ?_⟩
    · rw [htr, hst2]
      simp [List.replicate_succ]
    · rw [hpu, hst2]
    · rw [hse, hst2]
    · rw [hmw, hst2]
    · rw [hmn, hst2]
    · intro st' h
      exact hok st' h
  | case3 st hg =>
    rw [flowLoop_exit hg]
    refine ⟨⟨0, by simp [stateOf]⟩, rfl, rfl, rfl, rfl, ?_⟩
    intro st' h
    injection h with h1
    subst h1
    exact Nat.not_le.mp hg

lemma flowLoop_sound {rx owed : Nat} {rs : List Response} {cur : Nat} :
    ∀ st : SState, FInv rs cur st → cur < rx → st.sent ≤ rs.length →
      ∃ st', flowLoop rx owed rs st = .ok st' ∧ FInv rs cur st' ∧ st'.sent = st.sent := by
  intro st
  induction st using flowLoop_ind rx owed rs with
  | case1 st hg st2 h2 =>
    intro hF hcur hsent
    exfalso
    obtain ⟨hq, hs, hr⟩ := hF
    have hpos : 0 < st.inflight.length := by
      by_contra hz
      have hnil : st.inflight = [] := List.eq_nil_of_length_eq_zero (by omega)
      rw [hq, hnil] at hg
      simp at hg
      omega
    obtain ⟨st3, h3⟩ :=
      @recvStep_succeeds owed rs st (by omega) (by omega)
    rw [h2] at h3
    exact Except.noConfusion h3
  | case2 st hg st2 h2 ih =>
    intro hF hcur hsent
    obtain ⟨hq, hs, hr⟩ := hF
    have hpos : 0 < st.inflight.length := by
      by_contra hz
      have hnil : st.inflight = [] := List.eq_nil_of_length_eq_zero (by omega)
      rw [hq, hnil] at hg
      simp at hg
      omega
    obtain ⟨a, t, hat⟩ : ∃ a t, st.inflight = a :: t := by
      cases hinf : st.inflight with
      | nil => rw [hinf] at hpos; simp at hpos
      | cons a t => exact ⟨a, t, rfl⟩
    obtain ⟨hlt1, hlt2, hst2⟩ := recvStep_ok h2
    subst hst2
    have hF2 : FInv rs cur
        { st with
          received := st.received + 1,
          queued := st.queued.tail,
          inflight := st.inflight.tail,
          responses := st.responses ++ [(st.received + 1, rs.get ⟨st.received, hlt2⟩)],
          trace := st.trace ++ [Ev.recv] } := by
      refine ⟨?_, ?_, ?_⟩
      · dsimp only
        rw [hq, hat]
        simp
      · dsimp only
        rw [hat] at hs ⊢
        simp at hs ⊢
        omega
      · dsimp only
        rw [hr]
        exact responses_step hlt2
    obtain ⟨st', hfl', hF', hsent'⟩ := ih hF2 hcur (by dsimp only; omega)
    refine ⟨st', ?_, hF', by rw [hsent']⟩
    rw [flowLoop_step_ok hg h2]
    exact hfl'
  | case3 st hg =>
    intro hF hcur hsent
    exact ⟨st, flowLoop_exit hg, hF, rfl⟩

lemma drainLoop_sound {owed : Nat} {rs : List Response} :
    ∀ st : SState, MInv rs st → st.sent ≤ rs.length →
      ∃ st', drainLoop owed rs st = .ok st' ∧ st'.sent = st.sent ∧
        st'.received = st.sent ∧
        st'.responses = (rs.take st.sent).enumFrom 1 ∧
        (∃ k, st'.trace = st.trace ++ List.replicate k Ev.recv) ∧
        st'.pushes = st.pushes := by
  intro st
  induction st using drainLoop_ind owed rs with
  | case1 st hg st2 h2 =>
    intro hM hsent
    exfalso
    obtain ⟨st3, h3⟩ :=
      @recvStep_succeeds owed rs st (by omega) (by omega)
    rw [h2] at h3
    exact Except.noConfusion h3
  | case2 st hg st2 h2 ih =>
    intro hM hsent
    obtain ⟨hq, hs, hr⟩ := hM
    have hpos : 0 < st.inflight.length := by omega
    obtain ⟨a, t, hat⟩ : ∃ a t, st.inflight = a :: t := by
      cases hinf : st.inflight with
      | nil => rw [hinf] at hpos; simp at hpos
      | cons a t => exact ⟨a, t, rfl⟩
    obtain ⟨hlt1, hlt2, hst2⟩ := recvStep_ok h2
    subst hst2
    have hM2 : MInv rs
        { st with
          received := st.received + 1,
          queued := st.queued.tail,
          inflight := st.inflight.tail,
          responses := st.responses ++ [(st.received + 1, rs.get ⟨st.received, hlt2⟩)],
          trace := st.trace ++ [Ev.recv] } := by
      refine ⟨?_, ?_, ?_⟩
      · dsimp only
        rw [hq]
      · dsimp only
        rw [hat] at hs ⊢
        simp at hs ⊢
        omega
      · dsimp only
        rw [hr]
        exact responses_step hlt2
    obtain ⟨st', hdl', hse', hre', hresp', ⟨k, htr'⟩, hpu'⟩ := ih hM2 (by dsimp only; omega)
    refine ⟨st', ?_, by dsimp only at hse'; exact hse', by dsimp only at hre'; exact hre',
      by dsimp only at hresp'; exact hresp', ⟨k + 1, ?_⟩, by dsimp only at hpu'; exact hpu'⟩
    · rw [drainLoop_step_ok hg h2]
      exact hdl'
    · rw [htr']
      dsimp only
      simp [List.replicate_succ]
  | case3 st hg =>
    intro hM hsent
    obtain ⟨hq, hs, hr⟩ := hM
    have hre : st.received = st.sent := by omega
    exact ⟨st, drainLoop_exit hg, rfl, hre, by rw [hr, hre], ⟨0, by simp⟩, rfl⟩

lemma sentLines_append (a b : List Ev) :
    sentLines (a ++ b) = sentLines a ++ sentLines b := by
  unfold sentLines
  exact List.filterMap_append a b _

lemma sentLines_replicate_recv (k : Nat) :
    sentLines (List.replicate k Ev.recv) = [] := by
  induction k with
  | zero => rfl
  | succ n ih =>
    rw [List.replicate_succ]
    unfold sentLines at ih ⊢
    simp only [List.filterMap_cons]
    exact ih

lemma stepLine_sound {rx owed : Nat} {rs : List Response} {hasFile : Bool}
    {st : SState} {raw : String}
    (hM : MInv rs st) (hjog : jogMatch (trimStr raw) = false) (hlen : lineLen raw < rx)
    (hsent : st.sent < rs.length) :
    ∃ st', stepLine rx owed rs hasFile st raw = .ok st' ∧ MInv rs st' ∧
      st'.sent = st.sent + 1 ∧ st'.pushes = st.pushes ∧
      sentLines st'.trace = sentLines st.trace ++ [lineOf raw] := by
  obtain ⟨hq, hs, hr⟩ := hM
  have hF : FInv rs (lineLen raw) { st with queued := st.queued ++ [lineLen raw] } :=
    ⟨by dsimp only; rw [hq], hs, hr⟩
  obtain ⟨st2, hfl, hF2, hsent2⟩ :=
    @flowLoop_sound rx owed rs (lineLen raw) _ hF hlen (by dsimp only; omega)
  have hsh := @flowLoop_shape rx owed rs
    { st with queued := st.queued ++ [lineLen raw] }
  rw [hfl] at hsh
  simp only [stateOf] at hsh
  obtain ⟨⟨k, htr⟩, hpu, -, -, -, -⟩ := hsh
  obtain ⟨hq2, hs2, hr2⟩ := hF2
  refine ⟨sendUpdate (lineOf raw) st2, ?_, ⟨?_, ?_, ?_⟩, ?_, ?_, ?_⟩
  · unfold stepLine
    rw [hfl, hjog]
    simp
  · dsimp only [sendUpdate]
    exact hq2
  · dsimp only [sendUpdate]
    rw [hs2]
    simp
    omega
  · dsimp only [sendUpdate]
    exact hr2
  · show st2.sent + 1 = st.sent + 1
    rw [hsent2]
  · show st2.pushes = st.pushes
    rw [hpu]
  · show sentLines (st2.trace ++ [Ev.send (lineOf raw)]) = sentLines st.trace ++ [lineOf raw]
    rw [sentLines_append, htr, sentLines_append, sentLines_replicate_recv]
    simp [sentLines]

lemma foldRun {rx owed : Nat} {rs : List Response} {hasFile : Bool} :
    ∀ (gcode : List String) (st : SState), MInv rs st →
      (∀ l ∈ gcode, jogMatch (trimStr l) = false ∧ lineLen l < rx) →
      st.sent + gcode.length ≤ rs.length →
      ∃ st', List.foldlM (stepLine rx owed rs hasFile) st gcode = .ok st' ∧
        MInv rs st' ∧ st'.sent = st.sent + gcode.length ∧
        sentLines st'.trace = sentLines st.trace ++ gcode.map lineOf ∧
        st'.pushes = st.pushes := by
  intro gcode
  induction gcode with
  | nil =>
    intro st hM hfine hb
    exact ⟨st, rfl, hM, by simp, by simp, rfl⟩
  | cons l t ih =>
    intro st hM hfine hb
    have hl := hfine l (by simp)
    obtain ⟨st1, hstep, hM1, hsent1, hpush1, hlines1⟩ :=
      @stepLine_sound rx owed rs hasFile st l hM hl.1 hl.2
        (by simp at hb; omega)
    obtain ⟨st', hfold, hM', hsent', hlines', hpush'⟩ :=
      ih st1 hM1 (fun x hx => hfine x (by simp [hx])) (by simp at hb ⊢; omega)
    refine ⟨st', ?_, hM', by simp; omega, ?_, by rw [hpush', hpush1]⟩
    · rw [List.foldlM_cons, hstep]
      simpa using hfold
    · rw [hlines', hlines1]
      simp

/-- Completed run of `buffered_stream` on streamable input: the result is
the 1-based pairing of the consumed response prefix, and the wire carries
exactly the processed lines in order. -/
lemma bufferedStream_sound {rx owed : Nat} {rs : List Response}
    {gcode : List String} {pushes : List Report} {hasFile : Bool}
    (hfine : ∀ l ∈ gcode, jogMatch (trimStr l) = false ∧ lineLen l < rx)
    (hb : gcode.length ≤ rs.length) :
    ∃ st, bufferedStream gcode rx rs pushes owed hasFile = .ok st ∧
      st.responses = (rs.take gcode.length).enumFrom 1 ∧
      sentLines st.trace = gcode.map lineOf ∧
      st.sent = gcode.length ∧ st.received = gcode.length := by
  have hM0 : MInv rs (initState pushes) := ⟨rfl, rfl, by simp [initState]⟩
  obtain ⟨stF, hfold, hMF, hsentF, hlinesF, hpushF⟩ :=
    @foldRun rx owed rs hasFile gcode (initState pushes) hM0 hfine
      (by simpa [initState] using hb)
  obtain ⟨st', hdl, hse', hre', hresp', ⟨k, htr'⟩, hpu'⟩ :=
    @drainLoop_sound owed rs stF hMF (by simp [initState] at hsentF; omega)
  refine ⟨st', ?_, ?_, ?_, ?_, ?_⟩
  · unfold bufferedStream
    rw [hfold]
    exact hdl
  · rw [hresp']
    simp [initState] at hsentF
    rw [hsentF]
  · rw [htr', sentLines_append, sentLines_replicate_recv, hlinesF]
    simp [initState, sentLines]
  · simp [initState] at hsentF
    omega
  · simp [initState] at hsentF
    omega

lemma FInv_recvStep {owed : Nat} {rs : List Response} {cur : Nat} {st st2 : SState}
    (hF : FInv rs cur st) (hpos : 0 < st.inflight.length)
    (h2 : recvStep owed rs st = .ok st2) : FInv rs cur st2 := by
  obtain ⟨hq, hs, hr⟩ := hF
  obtain ⟨a, t, hat⟩ : ∃ a t, st.inflight = a :: t := by
    cases hinf : st.inflight with
    | nil => rw [hinf] at hpos; simp at hpos
    | cons a t => exact ⟨a, t, rfl⟩
  obtain ⟨hlt1, hlt2, hst2⟩ := recvStep_ok h2
  subst hst2
  refine ⟨?_, ?_, ?_⟩
  · dsimp only
    rw [hq, hat]
    simp
  · dsimp only
    rw [hat] at hs ⊢
    simp at hs ⊢
    omega
  · dsimp only
    rw [hr]
    exact responses_step hlt2

lemma flowLoop_pres0 {rx : Nat} {rs : List Response} {cur : Nat} :
    ∀ st st', FInv rs cur st → flowLoop rx 0 rs st = .ok st' → FInv rs cur st' := by
  intro st
  induction st using flowLoop_ind rx 0 rs with
  | case1 st hg st2 h2 =>
    intro st' hF h
    rw [flowLoop_step_err hg h2] at h
    exact Except.noConfusion h
  | case2 st hg st2 h2 ih =>
    intro st' hF h
    have hpos : 0 < st.inflight.length := by
      obtain ⟨hq, hs, hr⟩ := hF
      obtain ⟨hlt1, -, -⟩ := recvStep_ok h2
      omega
    have hF2 : FInv rs cur st2 := FInv_recvStep hF hpos h2
    rw [flowLoop_step_ok hg h2] at h
    exact ih st' hF2 h
  | case3 st hg =>
    intro st' hF h
    rw [flowLoop_exit hg] at h
    injection h with h1
    subst h1
    exact hF

lemma flowLoop_stuck0 {rx : Nat} {rs : List Response} {cur : Nat} :
    ∀ st, FInv rs cur st → rx ≤ cur → ∃ st', flowLoop rx 0 rs st = .error st' := by
  intro st
  induction st using flowLoop_ind rx 0 rs with
  | case1 st hg st2 h2 =>
    intro hF hcur
    exact ⟨st2, flowLoop_step_err hg h2⟩
  | case2 st hg st2 h2 ih =>
    intro hF hcur
    have hpos : 0 < st.inflight.length := by
      obtain ⟨hq, hs, hr⟩ := hF
      obtain ⟨hlt1, -, -⟩ := recvStep_ok h2
      omega
    obtain ⟨st', h'⟩ := ih (FInv_recvStep hF hpos h2) hcur
    exact ⟨st', by rw [flowLoop_step_ok hg h2]; exact h'⟩
  | case3 st hg =>
    intro hF hcur
    exfalso
    obtain ⟨hq, -, -⟩ := hF
    apply hg
    rw [hq, List.sum_append]
    simp
    omega

lemma MInv_sendUpdate {rs : List Response} {line : String} {s2 : SState}
    (hF : FInv rs line.utf8ByteSize s2) : MInv rs (sendUpdate line s2) := by
  obtain ⟨hq, hs, hr⟩ := hF
  refine ⟨?_, ?_, ?_⟩
  · show s2.queued = s2.inflight ++ [line.utf8ByteSize]
    exact hq
  · show s2.sent + 1 = s2.received + (s2.inflight ++ [line.utf8ByteSize]).length
    rw [hs]
    simp
    omega
  · exact hr

lemma MInv_jogWait {rs : List Response} {hasFile : Bool} {st st' : SState}
    (hM : MInv rs st) (h : jogWait hasFile st = .ok st') : MInv rs st' := by
  unfold jogWait at h
  split at h
  · exact Except.noConfusion h
  · injection h with h1
    subst h1
    exact hM

lemma stepLine_flow_err {rx owed : Nat} {rs : List Response} {hasFile : Bool}
    {st s : SState} {raw : String}
    (hfl : flowLoop rx owed rs { st with queued := st.queued ++ [lineLen raw] } = .error s) :
    stepLine rx owed rs hasFile st raw = .error s := by
  unfold stepLine
  rw [hfl]

lemma stepLine_flow_ok {rx owed : Nat} {rs : List Response} {hasFile : Bool}
    {st s2 : SState} {raw : String}
    (hfl : flowLoop rx owed rs { st with queued := st.queued ++ [lineLen raw] } = .ok s2) :
    stepLine rx owed rs hasFile st raw =
      if jogMatch (trimStr raw) then jogWait hasFile (sendUpdate (lineOf raw) s2)
      else .ok (sendUpdate (lineOf raw) s2) := by
  unfold stepLine
  rw [hfl]

lemma stepLine_pres0 {rx : Nat} {rs : List Response} {hasFile : Bool}
    {st st' : SState} {raw : String}
    (hM : MInv rs st) (h : stepLine rx 0 rs hasFile st raw = .ok st') :
    MInv rs st' := by
  obtain ⟨hq, hs, hr⟩ := hM
  have hF : FInv rs (lineLen raw) { st with queued := st.queued ++ [lineLen raw] } :=
    ⟨by dsimp only; rw [hq], hs, hr⟩
  cases hfl : flowLoop rx 0 rs { st with queued := st.queued ++ [lineLen raw] } with
  | error s =>
    rw [stepLine_flow_err hfl] at h
    exact Except.noConfusion h
  | ok s2 =>
    rw [stepLine_flow_ok hfl] at h
    have hF2 : FInv rs (lineLen raw) s2 := flowLoop_pres0 _ s2 hF hfl
    have hM2 : MInv rs (sendUpdate (lineOf raw) s2) := MInv_sendUpdate hF2
    split at h
    · exact MInv_jogWait hM2 h
    · injection h with h1
      subst h1
      exact hM2

lemma stepLine_stuck0 {rx : Nat} {rs : List Response} {hasFile : Bool}
    {st : SState} {raw : String}
    (hM : MInv rs st) (hlen : rx ≤ lineLen raw) :
    ∃ st', stepLine rx 0 rs hasFile st raw = .error st' := by
  obtain ⟨hq, hs, hr⟩ := hM
  have hF : FInv rs (lineLen raw) { st with queued := st.queued ++ [lineLen raw] } :=
    ⟨by dsimp only; rw [hq], hs, hr⟩
  obtain ⟨st', h⟩ := flowLoop_stuck0 _ hF hlen
  refine ⟨st', ?_⟩
  unfold stepLine
  rw [h]

lemma drainLoop_shape {owed : Nat} {rs : List Response} :
    ∀ st : SState,
      ∃ k, (stateOf (drainLoop owed rs st)).trace = st.trace ++ List.replicate k Ev.recv := by
  intro st
  induction st using drainLoop_ind owed rs with
  | case1 st hg st2 h2 =>
    have hst2 := recvStep_err h2
    rw [drainLoop_step_err hg h2]
    subst hst2
    exact ⟨0, by simp [stateOf]⟩
  | case2 st hg st2 h2 ih =>
    obtain ⟨hlt1, hlt2, hst2⟩ := recvStep_ok h2
    obtain ⟨k, htr⟩ := ih
    rw [drainLoop_step_ok hg h2]
    refine ⟨k + 1, ?_⟩
    rw [htr, hst2]
    simp [List.replicate_succ]
  | case3 st hg =>
    rw [drainLoop_exit hg]
    exact ⟨0, by simp [stateOf]⟩

lemma send_not_mem_replicate {s : String} {k : Nat} :
    Ev.send s ∉ List.replicate k Ev.recv := by
  intro h
  exact Ev.noConfusion (List.eq_of_mem_replicate h)

lemma jogWait_bound {rx : Nat} {hasFile : Bool} {stX : SState}
    (hb : ∀ s, Ev.send s ∈ stX.trace → s.utf8ByteSize < rx) :
    ∀ s, Ev.send s ∈ (stateOf (jogWait hasFile stX)).trace → s.utf8ByteSize < rx := by
  intro s hmem
  unfold jogWait at hmem
  split at hmem
  · simp only [stateOf] at hmem
    exact hb s hmem
  · rename_i r rest heq
    simp only [stateOf] at hmem
    rcases List.mem_append.mp hmem with hmem1 | hmem1
    · rcases List.mem_append.mp hmem1 with hmem2 | hmem2
      · exact hb s hmem2
      · simp at hmem2
    · cases hasFile <;> simp at hmem1

lemma stepLine_bound0 {rx : Nat} {rs : List Response} {hasFile : Bool}
    {st : SState} {raw : String}
    (hM : MInv rs st) (hbnd : ∀ s, Ev.send s ∈ st.trace → s.utf8ByteSize < rx) :
    ∀ s, Ev.send s ∈ (stateOf (stepLine rx 0 rs hasFile st raw)).trace →
      s.utf8ByteSize < rx := by
  obtain ⟨hq, hs, hr⟩ := hM
  have hF : FInv rs (lineLen raw) { st with queued := st.queued ++ [lineLen raw] } :=
    ⟨by dsimp only; rw [hq], hs, hr⟩
  have hsh := @flowLoop_shape rx 0 rs
    { st with queued := st.queued ++ [lineLen raw] }
  cases hfl : flowLoop rx 0 rs { st with queued := st.queued ++ [lineLen raw] } with
  | error s0 =>
    rw [stepLine_flow_err hfl]
    rw [hfl] at hsh
    simp only [stateOf] at hsh ⊢
    obtain ⟨⟨k, htr⟩, -, -, -, -, -⟩ := hsh
    intro s hmem
    rw [htr] at hmem
    rcases List.mem_append.mp hmem with hmem | hmem
    · exact hbnd s hmem
    · exact absurd hmem send_not_mem_replicate
  | ok s2 =>
    rw [stepLine_flow_ok hfl]
    rw [hfl] at hsh
    simp only [stateOf] at hsh
    obtain ⟨⟨k, htr⟩, -, -, -, -, hsum⟩ := hsh
    have hF2 : FInv rs (lineLen raw) s2 := flowLoop_pres0 _ s2 hF hfl
    have hlen : lineLen raw < rx := by
      have hs2 := hsum s2 rfl
      obtain ⟨hq2, -, -⟩ := hF2
      rw [hq2, List.sum_append] at hs2
      simp at hs2
      omega
    have hb2 : ∀ s, Ev.send s ∈ (sendUpdate (lineOf raw) s2).trace → s.utf8ByteSize < rx := by
      intro s hmem
      have hmem' : Ev.send s ∈ s2.trace ++ [Ev.send (lineOf raw)] := hmem
      rcases List.mem_append.mp hmem' with hmem2 | hmem2
      · rw [htr] at hmem2
        rcases List.mem_append.mp hmem2 with h3 | h3
        · exact hbnd s h3
        · exact absurd h3 send_not_mem_replicate
      · simp at hmem2
        rw [hmem2]
        exact hlen
    split
    · exact jogWait_bound hb2
    · intro s hmem
      simp only [stateOf] at hmem
      exact hb2 s hmem

lemma foldBound0 {rx : Nat} {rs : List Response} {hasFile : Bool} :
    ∀ (gcode : List String) (st : SState), MInv rs st →
      (∀ s, Ev.send s ∈ st.trace → s.utf8ByteSize < rx) →
      ∀ s, Ev.send s ∈ (stateOf (List.foldlM (stepLine rx 0 rs hasFile) st gcode)).trace →
        s.utf8ByteSize < rx := by
  intro gcode
  induction gcode with
  | nil =>
    intro st hM hb s hmem
    simp only [List.foldlM_nil] at hmem
    exact hb s hmem
  | cons l t ih =>
    intro st hM hb
    rw [List.foldlM_cons]
    cases hs1 : stepLine rx 0 rs hasFile st l with
    | error s1 =>
      intro s hmem
      have hb1 : ∀ s0, Ev.send s0 ∈ s1.trace → s0.utf8ByteSize < rx := by
        intro s0 hm0
        have hx := @stepLine_bound0 rx rs hasFile st l hM hb s0
        rw [hs1] at hx
        exact hx hm0
      exact hb1 s hmem
    | ok s1 =>
      intro s hmem
      have hM1 := stepLine_pres0 hM hs1
      have hb1 : ∀ s, Ev.send s ∈ s1.trace → s.utf8ByteSize < rx := by
        intro s0 hm0
        have := @stepLine_bound0 rx rs hasFile st l hM hb s0
        rw [hs1] at this
        exact this hm0
      exact ih s1 hM1 hb1 s hmem

lemma foldStuck0 {rx : Nat} {rs : List Response} {hasFile : Bool} :
    ∀ (gcode : List String) (st : SState), MInv rs st →
      (∃ l ∈ gcode, rx ≤ lineLen l) →
      ∃ st', List.foldlM (stepLine rx 0 rs hasFile) st gcode = .error st' := by
  intro gcode
  induction gcode with
  | nil =>
    intro st hM hex
    simp at hex
  | cons l t ih =>
    intro st hM hex
    rw [List.foldlM_cons]
    cases hs1 : stepLine rx 0 rs hasFile st l with
    | error s1 => exact ⟨s1, rfl⟩
    | ok s1 =>
      have hM1 := stepLine_pres0 hM hs1
      obtain ⟨lx, hlx, hover⟩ := hex
      rcases List.mem_cons.mp hlx with hx | hx
      · subst hx
        obtain ⟨se, hse⟩ := @stepLine_stuck0 rx rs hasFile st lx hM hover
        rw [hs1] at hse
        exact Except.noConfusion hse
      · obtain ⟨st', h'⟩ := ih s1 hM1 ⟨lx, hx, hover⟩
        exact ⟨st', h'⟩

/-- A stream given an oversized line (at least `rx` bytes after
processing) blocks forever: the source keeps calling `receive` while
`bytes_queued` sums to at least the buffer size, and once every written
line is acknowledged no further response can arrive. -/
lemma bufferedStream_stuck0 {rx : Nat} {rs : List Response}
    {gcode : List String} {pushes : List Report} {hasFile : Bool}
    (hex : ∃ l ∈ gcode, rx ≤ lineLen l) :
    ∃ st, bufferedStream gcode rx rs pushes 0 hasFile = .error st := by
  have hM0 : MInv rs (initState pushes) := ⟨rfl, rfl, by simp [initState]⟩
  obtain ⟨st', h'⟩ := @foldStuck0 rx rs hasFile gcode (initState pushes) hM0 hex
  refine ⟨st', ?_⟩
  unfold bufferedStream
  rw [h']

/-- Every line ever written by a stand-alone stream (`owed = 0`) is
shorter than the receive buffer, on both completed and blocked runs. -/
lemma bufferedStream_bound0 {rx : Nat} {rs : List Response}
    {gcode : List String} {pushes : List Report} {hasFile : Bool} :
    ∀ s, Ev.send s ∈ (stateOf (bufferedStream gcode rx rs pushes 0 hasFile)).trace →
      s.utf8ByteSize < rx := by
  have hM0 : MInv rs (initState pushes) := ⟨rfl, rfl, by simp [initState]⟩
  have hb0 : ∀ s, Ev.send s ∈ (initState pushes).trace → s.utf8ByteSize < rx := by
    intro s hmem
    simp [initState] at hmem
  have hfold := @foldBound0 rx rs hasFile gcode (initState pushes) hM0 hb0
  intro s hmem
  unfold bufferedStream at hmem
  revert hmem
  cases hf : List.foldlM (stepLine rx 0 rs hasFile) (initState pushes) gcode with
  | error stF =>
    intro hmem
    apply hfold
    rw [hf]
    exact hmem
  | ok stF =>
    intro hmem
    obtain ⟨k, htr⟩ := @drainLoop_shape 0 rs stF
    rw [htr] at hmem
    rcases List.mem_append.mp hmem with hmem1 | hmem1
    · apply hfold
      rw [hf]
      exact hmem1
    · exact absurd hmem1 send_not_mem_replicate

lemma waitForReport_sound {pred : Report → Bool} :
    ∀ (pushes : List Report) (r : Report) (rest : List Report),
      waitForReport pred pushes = some (r, rest) →
      ∃ skipped, pushes = skipped ++ r :: rest ∧
        (∀ p ∈ skipped, pred p = false) ∧ pred r = true := by
  intro pushes
  induction pushes with
  | nil =>
    intro r rest h
    exact Option.noConfusion h
  | cons p t ih =>
    intro r rest h
    unfold waitForReport at h
    split at h
    · rename_i hp
      injection h with h1
      have hr : p = r := congrArg Prod.fst h1
      have ht : t = rest := congrArg Prod.snd h1
      subst hr
      subst ht
      exact ⟨[], by simp, by simp, hp⟩
    · rename_i hp
      obtain ⟨sk, hsk, hall, hr⟩ := ih r rest h
      refine ⟨p :: sk, by rw [hsk]; simp, ?_, hr⟩
      intro q hq
      rcases List.mem_cons.mp hq with hq | hq
      · subst hq
        simpa using hp
      · exact hall q hq

lemma stepLine_plain {rx owed : Nat} {rs : List Response} {hasFile : Bool}
    {st st' : SState} {raw : String}
    (hjog : jogMatch (trimStr raw) = false)
    (h : stepLine rx owed rs hasFile st raw = .ok st') :
    (∃ k, st'.trace = st.trace ++ List.replicate k Ev.recv ++ [Ev.send (trimStr raw)]) ∧
    st'.pushes = st.pushes := by
  have hline : lineOf raw = trimStr raw := by
    unfold lineOf
    simp [hjog]
  cases hfl : flowLoop rx owed rs { st with queued := st.queued ++ [lineLen raw] } with
  | error s =>
    rw [stepLine_flow_err hfl] at h
    exact Except.noConfusion h
  | ok s2 =>
    rw [stepLine_flow_ok hfl, hjog] at h
    simp at h
    have hsh := @flowLoop_shape rx owed rs
      { st with queued := st.queued ++ [lineLen raw] }
    rw [hfl] at hsh
    simp only [stateOf] at hsh
    obtain ⟨⟨k, htr⟩, hpu, -, -, -, -⟩ := hsh
    subst h
    constructor
    · refine ⟨k, ?_⟩
      show s2.trace ++ [Ev.send (lineOf raw)] = _
      rw [htr, hline]
    · show s2.pushes = st.pushes
      rw [hpu]

lemma stepLine_jog {rx owed : Nat} {rs : List Response} {hasFile : Bool}
    {st st' : SState} {raw : String}
    (hjog : jogMatch (trimStr raw) = true)
    (h : stepLine rx owed rs hasFile st raw = .ok st') :
    ∃ k r skipped rest,
      st'.trace = st.trace ++ List.replicate k Ev.recv ++
        [Ev.send (dropRightStr (trimStr raw) 3)] ++ [Ev.report r] ++
        (if hasFile then [Ev.point (r.mpos.getD (0, 0, 0))] else []) ∧
      st.pushes = skipped ++ r :: rest ∧ (∀ p ∈ skipped, matchIdle p = false) ∧
      matchIdle r = true ∧ st'.pushes = rest := by
  have hline : lineOf raw = dropRightStr (trimStr raw) 3 := by
    unfold lineOf
    simp [hjog]
  cases hfl : flowLoop rx owed rs { st with queued := st.queued ++ [lineLen raw] } with
  | error s =>
    rw [stepLine_flow_err hfl] at h
    exact Except.noConfusion h
  | ok s2 =>
    rw [stepLine_flow_ok hfl, hjog] at h
    simp at h
    have hsh := @flowLoop_shape rx owed rs
      { st with queued := st.queued ++ [lineLen raw] }
    rw [hfl] at hsh
    simp only [stateOf] at hsh
    obtain ⟨⟨k, htr⟩, hpu, -, -, -, -⟩ := hsh
    unfold jogWait at h
    split at h
    · exact Except.noConfusion h
    · rename_i r rest heq
      injection h with h1
      subst h1
      obtain ⟨sk, hsk, hall, hr⟩ := waitForReport_sound _ r rest heq
      have hpp : s2.pushes = st.pushes := by rw [hpu]
      refine ⟨k, r, sk, rest, ?_, ?_, hall, hr, rfl⟩
      · show (sendUpdate (lineOf raw) s2).trace ++ [Ev.report r] ++ _ = _
        show s2.trace ++ [Ev.send (lineOf raw)] ++ [Ev.report r] ++ _ = _
        rw [htr, hline]
      · rw [← hpp]
        exact hsk

/-! Lemmas about the connection.rs send worker and streams. -/

lemma drainQueue_eq : ∀ (cmds : List WCmd) (q : List WCmd),
    drainQueue cmds q =
      (cmds.filter WCmd.isRT).reverse ++ q ++ cmds.filter (fun c => !WCmd.isRT c) := by
  intro cmds
  induction cmds with
  | nil => intro q; simp [drainQueue]
  | cons c t ih =>
    intro q
    cases c with
    | realtime r =>
      show drainQueue t (WCmd.realtime r :: q) = _
      rw [ih]
      simp [WCmd.isRT, List.filter_cons]
    | block line sq =>
      show drainQueue t (q ++ [WCmd.block line sq]) = _
      rw [ih]
      simp [WCmd.isRT, List.filter_cons]

lemma sendWorker_realtime_first (cmds : List WCmd) (hany : cmds.any WCmd.isRT = true) :
    (sendWorker cmds).1.all WCmd.isRT = true ∧ (sendWorker cmds).1 ≠ [] := by
  have hne : (cmds.filter WCmd.isRT) ≠ [] := by
    intro he
    rw [List.any_eq_true] at hany
    obtain ⟨c, hc, hrt⟩ := hany
    have hmem : c ∈ cmds.filter WCmd.isRT := List.mem_filter.mpr ⟨hc, hrt⟩
    rw [he] at hmem
    simp at hmem
  obtain ⟨x, xs, hx⟩ : ∃ x xs, (cmds.filter WCmd.isRT).reverse = x :: xs := by
    cases hrev : (cmds.filter WCmd.isRT).reverse with
    | nil => rw [List.reverse_eq_nil_iff] at hrev; exact absurd hrev hne
    | cons x xs => exact ⟨x, xs, rfl⟩
  have hxrt : WCmd.isRT x = true := by
    have hmem : x ∈ (cmds.filter WCmd.isRT).reverse := by rw [hx]; simp
    rw [List.mem_reverse] at hmem
    exact (List.mem_filter.mp hmem).2
  have hq : drainQueue cmds [] = x :: (xs ++ cmds.filter (fun c => !WCmd.isRT c)) := by
    rw [drainQueue_eq, hx]
    simp
  unfold sendWorker
  rw [hq]
  cases x with
  | block l sq => simp [WCmd.isRT] at hxrt
  | realtime r =>
    unfold dispatchOnce
    simp [WCmd.isRT]

lemma connStreamSetup_aux : ∀ (cmds : List CCmd) (a : List CCmd) (n : Nat),
    List.foldl
      (fun acc c =>
        match c with
        | CCmd.block _ => (acc.1 ++ [c], acc.2 + 1)
        | CCmd.realtime _ => acc)
      (a, n) cmds =
      (a ++ cmds.filter CCmd.isBlock, n + (cmds.filter CCmd.isBlock).length) := by
  intro cmds
  induction cmds with
  | nil => intro a n; simp
  | cons c t ih =>
    intro a n
    cases c with
    | block line =>
      show List.foldl _ (a ++ [CCmd.block line], n + 1) t = _
      rw [ih]
      simp [CCmd.isBlock, List.filter_cons]
      omega
    | realtime r =>
      show List.foldl _ (a, n) t = _
      rw [ih]
      simp [CCmd.isBlock, List.filter_cons]

lemma taskStream_aux (running : Bool) (hr : running = true) :
    ∀ (cmds : List CCmd) (a : List CCmd),
      List.foldlM
        (fun acc c =>
          match c with
          | CCmd.block _ => if running then Except.ok (acc ++ [c]) else Except.error ()
          | CCmd.realtime _ => Except.ok acc)
        a cmds = (Except.ok (a ++ cmds.filter CCmd.isBlock) : Except Unit (List CCmd)) := by
  subst hr
  intro cmds
  induction cmds with
  | nil =>
    intro a
    simp
    rfl
  | cons c t ih =>
    intro a
    cases c with
    | block line =>
      have h2 := ih (a ++ [CCmd.block line])
      rw [show (a ++ [CCmd.block line]) ++ List.filter CCmd.isBlock t =
          a ++ List.filter CCmd.isBlock (CCmd.block line :: t) from by
        simp [CCmd.isBlock, List.filter_cons]] at h2
      exact h2
    | realtime r =>
      have h2 := ih a
      rw [show a ++ List.filter CCmd.isBlock t =
          a ++ List.filter CCmd.isBlock (CCmd.realtime r :: t) from by
        simp [CCmd.isBlock, List.filter_cons]] at h2
      exact h2

lemma connStreamCollectFrom_eq : ∀ (replies : List ConnMessage) (i : Nat),
    connStreamCollectFrom i replies = replies.enumFrom i := by
  intro replies
  induction replies with
  | nil => intro i; rfl
  | cons m t ih =>
    intro i
    show (i, m) :: connStreamCollectFrom (i + 1) t = _
    rw [ih]
    rfl

lemma taskCheckErrors_eq (msgs : List ConnMessage) :
    taskCheckErrors msgs = (msgs.enumFrom 1).filter (fun p => isConnErr p.2) := by
  unfold taskCheckErrors
  have h : ∀ (t : List ConnMessage) (i : Nat),
      (t.enumFrom i).filterMap
          (fun p => if isConnErr p.2 then some (p.1 + 1, p.2) else none) =
        (t.enumFrom (i + 1)).filter (fun p => isConnErr p.2) := by
    intro t
    induction t with
    | nil => intro i; rfl
    | cons m u ih =>
      intro i
      show List.filterMap _ ((i, m) :: u.enumFrom (i + 1)) = _
      by_cases hm : isConnErr m
      · simp only [List.filterMap_cons, List.enumFrom, List.filter_cons]
        simp [hm, ih]
      · simp only [List.filterMap_cons, List.enumFrom, List.filter_cons]
        simp [hm, ih]
  exact h msgs 0

/-! Lemmas about the codecs. -/

lemma connMessageFrom_response {s : String} {r : ConnResponse} :
    connMessageFrom s = .response r ↔ connResponseTryFrom s = .ok r := by
  unfold connMessageFrom
  cases hr : connResponseTryFrom s with
  | ok r2 => simp
  | error e =>
    cases hp : connPushTryFrom s with
    | ok p => simp
    | error e2 => simp

lemma connResponseTryFrom_ok {s : String} :
    connResponseTryFrom s = .ok ConnResponse.ok ↔ s = "ok" := by
  unfold connResponseTryFrom
  split
  · rename_i hs
    simp [hs]
  · rename_i hs
    split
    · simp [hs, ite_eq_iff]
    · simp [hs]

lemma connMessageFrom_unknown {s : String}
    (h1 : ¬ s = "ok") (h2 : errorForm s = false) (h3 : alarmForm s = false)
    (h4 : connReportForm s = false) (h5 : feedbackForm s = false) :
    connMessageFrom s = .unknown s := by
  simp [connMessageFrom, connResponseTryFrom, connPushTryFrom, h1, h2, h3, h4, h5]

lemma controllerMessageFrom_contains {s : String}
    (h : hasSub s.data "ok".data = true) :
    controllerMessageFrom s = some (.response .ok) := by
  unfold controllerMessageFrom
  rw [if_pos h]

lemma gcodeCheck_eq {gcode : List String} {rx : Nat} {rest : List Response}
    {pushes : List Report}
    (hfine : ∀ l ∈ gcode, jogMatch (trimStr l) = false ∧ lineLen l < rx)
    (hb : gcode.length ≤ rest.length + 1) :
    errsOf (gcodeCheck gcode rx (Response.ok :: rest) pushes) =
      some ((((Response.ok :: rest).take gcode.length).enumFrom 1).filter fun p =>
        isErr p.2) := by
  obtain ⟨st, hok, hresp, -, -, -⟩ :=
    @bufferedStream_sound rx 1 (Response.ok :: rest) gcode pushes false hfine
      (by simpa using hb)
  unfold gcodeCheck
  rw [hok]
  show some (st.responses.filter fun p => isErr p.2) = _
  rw [hresp]

/-! Claim theorems. -/

/-- C1 (code bug in the source): the flow control of `buffered_stream`
(src/controller/serial.rs lines 106-110) accounts only `line.len()` bytes
per unacknowledged line, but each line occupies `line.len() + 1` bytes of
the controller's receive buffer (the writer appends one `\n`,
src/controller.rs line 166).  The claimed invariant
`Σ (len+1) ≤ rx_buffer_size − 1` therefore fails: with
`rx_buffer_size = 128` and lines of 64 and 63 bytes, both lines are
written while unacknowledged, and the receive buffer then holds
`65 + 64 = 129 > 127` bytes. -/
theorem c1_wire_occupancy_exceeds_bound :
    maxWireOf (bufferedStream
      [String.mk (List.replicate 64 'a'), String.mk (List.replicate 63 'b')]
      128 [Response.ok, Response.ok] [] 0 false) = 129 ∧ ¬ (129 ≤ 128 - 1) :=
  ⟨by decide, by decide⟩

/-- C2 (confirmed): in the send worker of src/connection.rs lines 81-91,
draining the submission channel pushes every Realtime command to the
front of the pending queue and every Block to the back, so the drained
queue is exactly the submitted Realtimes (in reverse submission order),
then the previously pending commands, then the submitted Blocks in
submission order; consequently the dispatch of lines 93-138 never writes
a Block while a submitted Realtime is pending — whenever any Realtime was
submitted, everything the worker writes is a Realtime (and it does write
one). -/
theorem c2_realtime_leapfrogs_blocks :
    (∀ (cmds : List WCmd) (q : List WCmd),
      drainQueue cmds q =
        (cmds.filter WCmd.isRT).reverse ++ q ++ cmds.filter (fun c => !WCmd.isRT c)) ∧
    (∀ cmds : List WCmd, cmds.any WCmd.isRT = true →
      (sendWorker cmds).1.all WCmd.isRT = true ∧ (sendWorker cmds).1 ≠ []) :=
  ⟨drainQueue_eq, sendWorker_realtime_first⟩

/-- Witness for C2: a Block submitted before a Realtime; the worker's
write is the Realtime, not the Block. -/
theorem c2_realtime_leapfrogs_blocks_w :
    (sendWorker [WCmd.block "G0 X0" none, WCmd.realtime RealtimeCmd.feedHold]).1.all
        WCmd.isRT = true ∧
    (sendWorker [WCmd.block "G0 X0" none, WCmd.realtime RealtimeCmd.feedHold]).1 ≠ [] :=
  c2_realtime_leapfrogs_blocks.2 _ (by decide)

/-- C3 counterexample: `ActiveConnection::stream` (src/connection.rs
lines 196-199) pairs each collected reply with
`receivers.iter().enumerate()`, which is 0-based: a single Block
acknowledged with `ok` yields `[(0, ok)]`, not the claimed `[(1, ok)]`. -/
theorem c3_cx_zero_based_indices :
    connStreamCollect [ConnMessage.response ConnResponse.ok] =
      [(0, ConnMessage.response ConnResponse.ok)] ∧
    ¬ connStreamCollect [ConnMessage.response ConnResponse.ok] =
      [(1, ConnMessage.response ConnResponse.ok)] :=
  ⟨rfl, by decide⟩

/-- C3 (amended): for every finite sequence of streamable Blocks with no
jog interleaving, acknowledged in write order with one response per
block, `buffered_stream` (src/controller/serial.rs) returns exactly the
responses paired with their 1-based submission indices
`[(1, r1), ..., (n, rn)]`; `ActiveConnection::stream`
(src/connection.rs), however, returns the same bijection paired with
0-based indices (`List.enum`). -/
theorem c3_stream_response_pairing :
    (∀ (gcode : List String) (rx : Nat) (rs : List Response) (pushes : List Report)
        (hasFile : Bool),
      fineLines gcode rx → gcode.length ≤ rs.length →
      okResponses (bufferedStream gcode rx rs pushes 0 hasFile) =
        some ((rs.take gcode.length).enumFrom 1)) ∧
    (∀ replies : List ConnMessage, connStreamCollect replies = replies.enum) := by
  constructor
  · intro gcode rx rs pushes hasFile hfine hb
    obtain ⟨st, hok, hresp, -, -, -⟩ := @bufferedStream_sound rx 0 rs gcode pushes hasFile hfine hb
    rw [hok]
    show some st.responses = _
    rw [hresp]
  · intro replies
    unfold connStreamCollect
    rw [connStreamCollectFrom_eq]
    rfl

/-- Witness for C3 at the spec's simple-stream scenario
(`RX_CAPACITY = 128`, three blocks, each acknowledged `ok`). -/
theorem c3_stream_response_pairing_w :
    okResponses (bufferedStream ["G0 X0", "G0 X1", "G0 X2"] 128
        [Response.ok, Response.ok, Response.ok] [] 0 false) =
      some (([Response.ok, Response.ok, Response.ok].take
        (["G0 X0", "G0 X1", "G0 X2"] : List String).length).enumFrom 1) :=
  c3_stream_response_pairing.1 ["G0 X0", "G0 X1", "G0 X2"] 128
    [Response.ok, Response.ok, Response.ok] [] false (by decide) (by decide)

/-- C4 counterexample: in `execute_gcode_step` (src/steps/gcode.rs lines
55-99) the `$C` toggles are sent without awaiting their `ok` (the trace
begins with two consecutive sends), and when the controller acknowledges
the first `$C` that `ok` is consumed as the first stream response, so the
claim's scenario (three blocks acknowledged `ok`, `error:2`, `ok`)
returns `[(3, Error 2)]` instead of the claimed `[(2, Error 2)]`. -/
theorem c4_cx_unawaited_toggle :
    errsOf (gcodeCheck ["G0 X0", "G0 X1", "G0 X2"] 128
        [Response.ok, Response.ok, Response.error 2, Response.ok, Response.ok] []) =
      some [(3, Response.error 2)] ∧
    ¬ errsOf (gcodeCheck ["G0 X0", "G0 X1", "G0 X2"] 128
        [Response.ok, Response.ok, Response.error 2, Response.ok, Response.ok] []) =
      some [(2, Response.error 2)] ∧
    (checkTraceOf (gcodeCheck ["G0 X0", "G0 X1", "G0 X2"] 128
        [Response.ok, Response.ok, Response.error 2, Response.ok, Response.ok] [])).map
        (fun tr => tr.take 2) = some [Ev.send "$C", Ev.send "G0 X0"] :=
  ⟨by decide, by decide, by decide⟩

/-- C4 (amended): check mode sends Block `$C`, streams the blocks, and
sends `$C` again.  In src/task.rs lines 95-133 each toggle awaits one
reply before proceeding and the result is exactly the Error-variant
responses with their 1-based indices; in src/steps/gcode.rs lines 55-99
the toggles are not awaited, so when the controller acknowledges the
first `$C` that `ok` is consumed as stream response number one and the
error list is the Error subset of the shifted pairing
`enumFrom 1 (take n (ok :: replies))`. -/
theorem c4_check_mode :
    (∀ msgs : List ConnMessage,
      taskCheckErrors msgs = (msgs.enumFrom 1).filter (fun p => isConnErr p.2)) ∧
    (∀ blocks : List String,
      (taskCheckTrace blocks).take 2 = [Ev.send "$C", Ev.recv] ∧
      (taskCheckTrace blocks).drop (2 + blocks.length + blocks.length) =
        [Ev.send "$C", Ev.recv]) ∧
    (∀ (gcode : List String) (rx : Nat) (rest : List Response) (pushes : List Report),
      fineLines gcode rx → gcode.length ≤ rest.length + 1 →
      errsOf (gcodeCheck gcode rx (Response.ok :: rest) pushes) =
        some ((((Response.ok :: rest).take gcode.length).enumFrom 1).filter fun p =>
          isErr p.2)) := by
  refine ⟨taskCheckErrors_eq, ?_, ?_⟩
  · intro blocks
    constructor
    · rfl
    · have h1 : taskCheckTrace blocks =
          ([Ev.send "$C", Ev.recv] ++ blocks.map Ev.send ++
            blocks.map (fun _ => Ev.recv)) ++ [Ev.send "$C", Ev.recv] := by
        unfold taskCheckTrace
        simp [List.append_assoc]
      rw [h1]
      have h2 : ([Ev.send "$C", Ev.recv] ++ blocks.map Ev.send ++
          blocks.map (fun _ => Ev.recv)).length = 2 + blocks.length + blocks.length := by
        simp
        omega
      rw [← h2, List.drop_left]
  · intro gcode rx rest pushes hfine hb
    exact gcodeCheck_eq hfine hb

/-- Witness for C4 at the claim's scenario, including the controller's
acknowledgements of both toggles on the shared channel. -/
theorem c4_check_mode_w :
    errsOf (gcodeCheck ["G0 X0", "G0 X1", "G0 X2"] 128
        (Response.ok :: [Response.ok, Response.error 2, Response.ok, Response.ok]) []) =
      some ((((Response.ok :: [Response.ok, Response.error 2, Response.ok,
        Response.ok]).take (["G0 X0", "G0 X1", "G0 X2"] : List String).length).enumFrom
          1).filter fun p => isErr p.2) :=
  c4_check_mode.2.2 ["G0 X0", "G0 X1", "G0 X2"] 128
    [Response.ok, Response.error 2, Response.ok, Response.ok] [] (by decide) (by decide)

/-- C5 counterexample: a block of exactly `rx_buffer_size − 1` bytes
(127 bytes at `rx_buffer_size = 128`) is claimed to fail with
OversizedBlock at submission before any bytes are written; instead
`buffered_stream` writes it and completes normally. -/
theorem c5_cx_boundary_block_sent :
    okView (bufferedStream [String.mk (List.replicate 127 'G')] 128
        [Response.ok] [] 0 false) =
      some ([String.mk (List.replicate 127 'G')], [(1, Response.ok)]) ∧
    (String.mk (List.replicate 127 'G')).utf8ByteSize = 128 - 1 :=
  ⟨by decide, by decide⟩

/-- C5 (amended): no OversizedBlock error exists in the source.  A block
whose written line is at least `rx_buffer_size` bytes is never written:
the stream blocks forever waiting for a response that cannot arrive
(every line it ever writes, on completed and on blocked runs alike, is
shorter than `rx_buffer_size`); a block of `rx_buffer_size − 1` bytes or
fewer is written normally (see the counterexample). -/
theorem c5_oversized_never_sent :
    (∀ (gcode : List String) (rx : Nat) (rs : List Response) (pushes : List Report)
        (hasFile : Bool),
      (∃ l ∈ gcode, rx ≤ lineLen l) →
      ∃ st, bufferedStream gcode rx rs pushes 0 hasFile = .error st) ∧
    (∀ (gcode : List String) (rx : Nat) (rs : List Response) (pushes : List Report)
        (hasFile : Bool) (s : String),
      Ev.send s ∈ (stateOf (bufferedStream gcode rx rs pushes 0 hasFile)).trace →
      s.utf8ByteSize < rx) :=
  ⟨fun _ _ _ _ _ hex => bufferedStream_stuck0 hex,
   fun _ _ _ _ _ _ => bufferedStream_bound0 _⟩

/-- Witness for C5: a five-byte line at `rx_buffer_size = 4` blocks
forever, and a line written by a completed stream is within bounds. -/
theorem c5_oversized_never_sent_w :
    (∃ st, bufferedStream ["GGGGG"] 4 [] [] 0 false = .error st) ∧
    ("G0 X0" : String).utf8ByteSize < 128 :=
  ⟨c5_oversized_never_sent.1 ["GGGGG"] 4 [] [] false (by decide),
   c5_oversized_never_sent.2 ["G0 X0"] 128 [Response.ok] [] false "G0 X0" (by decide)⟩

/-- C6 counterexample: the codec of src/controller.rs line 112 classifies
any line merely containing the substring `ok` as `Response::Ok`; the line
`broken` is not `ok` yet parses as `Response::Ok` instead of
`Unknown("broken")`. -/
theorem c6_cx_contains_ok :
    controllerMessageFrom "broken" = some (CtrlMessage.response CtrlResponse.ok) ∧
    ¬ ("broken" : String) = "ok" :=
  ⟨by decide, by decide⟩

/-- C6 (amended): in the src/connection/message.rs codec, parsing yields
`Response::Ok` exactly when the trimmed line equals `"ok"`, and a line
matching none of the message forms yields `Unknown` carrying the verbatim
line; the src/controller.rs (and src/message.rs) codec instead yields
`Response::Ok` for every line containing `ok` as a substring. -/
theorem c6_ok_classification :
    (∀ s : String, connMessageFrom s = .response .ok ↔ s = "ok") ∧
    (∀ s : String, ¬ s = "ok" → errorForm s = false → alarmForm s = false →
      connReportForm s = false → feedbackForm s = false →
      connMessageFrom s = .unknown s) ∧
    (∀ s : String, hasSub s.data "ok".data = true →
      controllerMessageFrom s = some (.response .ok)) := by
  refine ⟨?_, ?_, ?_⟩
  · intro s
    rw [connMessageFrom_response]
    exact connResponseTryFrom_ok
  · intro s h1 h2 h3 h4 h5
    exact connMessageFrom_unknown h1 h2 h3 h4 h5
  · intro s h
    exact controllerMessageFrom_contains h

/-- Witness for C6 at concrete lines. -/
theorem c6_ok_classification_w :
    connMessageFrom "zzz" = .unknown "zzz" ∧
    controllerMessageFrom "xokx" = some (.response .ok) :=
  ⟨c6_ok_classification.2.1 "zzz" (by decide) (by decide) (by decide) (by decide)
      (by decide),
   c6_ok_classification.2.2 "xokx" (by decide)⟩

/-- C7 (code bug in the source): `Message::from` of src/controller.rs
lines 111-123 (and src/message.rs lines 20-32) parses the digits of
`error:<digits>` with `code.parse::<u8>().unwrap()`; digits that do not
fit in a `u8` make the `unwrap` panic (modelled as `none`) instead of
failing with an InvalidCode parse error. -/
theorem c7_u8_overflow_panics :
    controllerMessageFrom "error:256" = none := by decide

/-- C8 (confirmed): `ActiveConnection::stream` (src/connection.rs lines
184-202) submits exactly the Block commands of its input, in order, and
creates one reply receiver per Block; the `stream` closure of src/task.rs
lines 74-93 (with the running flag set) likewise submits exactly the
Blocks and silently skips every Realtime. -/
theorem c8_stream_submits_blocks_only :
    (∀ cmds : List CCmd,
      connStreamSetup cmds =
        (cmds.filter CCmd.isBlock, (cmds.filter CCmd.isBlock).length)) ∧
    (∀ cmds : List CCmd,
      taskStreamSubmitted true cmds = .ok (cmds.filter CCmd.isBlock)) := by
  constructor
  · intro cmds
    have h := connStreamSetup_aux cmds [] 0
    simpa [connStreamSetup] using h
  · intro cmds
    have h := taskStream_aux true rfl cmds []
    simpa [taskStreamSubmitted] using h

/-- C9 (confirmed): in the loop body of `buffered_stream`
(src/controller/serial.rs lines 98-149), a line whose trimmed text
matches `^\$J=.* IN$` is written with the trailing ` IN` stripped, and
before any further line is written the step consumes priority pushes up
to the first report with status `Idle` and a machine position, recording
that report and (when an output file is given) writing its position
triple; every other line is written trimmed and otherwise unmodified,
with no report consumed. -/
theorem c9_jog_line_handling :
    (∀ (rx owed : Nat) (rs : List Response) (hasFile : Bool) (st st' : SState)
        (raw : String),
      jogMatch (trimStr raw) = true →
      stepLine rx owed rs hasFile st raw = .ok st' →
      ∃ k r skipped rest,
        st'.trace = st.trace ++ List.replicate k Ev.recv ++
          [Ev.send (dropRightStr (trimStr raw) 3)] ++ [Ev.report r] ++
          (if hasFile then [Ev.point (r.mpos.getD (0, 0, 0))] else []) ∧
        st.pushes = skipped ++ r :: rest ∧ (∀ p ∈ skipped, matchIdle p = false) ∧
        matchIdle r = true ∧ st'.pushes = rest) ∧
    (∀ (rx owed : Nat) (rs : List Response) (hasFile : Bool) (st st' : SState)
        (raw : String),
      jogMatch (trimStr raw) = false →
      stepLine rx owed rs hasFile st raw = .ok st' →
      (∃ k, st'.trace = st.trace ++ List.replicate k Ev.recv ++
        [Ev.send (trimStr raw)]) ∧ st'.pushes = st.pushes) :=
  ⟨fun _ _ _ _ _ _ _ hj h => stepLine_jog hj h,
   fun _ _ _ _ _ _ _ hj h => stepLine_plain hj h⟩

/-- Witness for C9: one jog line against a push schedule holding one
matching idle report. -/
theorem c9_jog_line_handling_w :
    ∃ k r skipped rest,
      (⟨[9], 0, 1, [], [], [Ev.send "$J=G91 X1",
        Ev.report ⟨"<Idle|MPos:1,2,3>", some Status.idle, some (1, 2, 3), none⟩,
        Ev.point (1, 2, 3)], [9], 10, 9⟩ : SState).trace =
        (initState [⟨"<Idle|MPos:1,2,3>", some Status.idle, some (1, 2, 3), none⟩]).trace ++
          List.replicate k Ev.recv ++
          [Ev.send (dropRightStr (trimStr "$J=G91 X1 IN") 3)] ++ [Ev.report r] ++
          (if true then [Ev.point (r.mpos.getD (0, 0, 0))] else []) ∧
      (initState [⟨"<Idle|MPos:1,2,3>", some Status.idle, some (1, 2, 3), none⟩]).pushes =
        skipped ++ r :: rest ∧
      (∀ p ∈ skipped, matchIdle p = false) ∧ matchIdle r = true ∧
      (⟨[9], 0, 1, [], [], [Ev.send "$J=G91 X1",
        Ev.report ⟨"<Idle|MPos:1,2,3>", some Status.idle, some (1, 2, 3), none⟩,
        Ev.point (1, 2, 3)], [9], 10, 9⟩ : SState).pushes = rest :=
  c9_jog_line_handling.1 128 0 [] true
    (initState [⟨"<Idle|MPos:1,2,3>", some Status.idle, some (1, 2, 3), none⟩])
    ⟨[9], 0, 1, [], [], [Ev.send "$J=G91 X1",
      Ev.report ⟨"<Idle|MPos:1,2,3>", some Status.idle, some (1, 2, 3), none⟩,
      Ev.point (1, 2, 3)], [9], 10, 9⟩
    "$J=G91 X1 IN" (by decide) (by rfl)

/-- C10 (confirmed): `Report::try_from` (src/controller/message.rs lines
155-202, identically src/message.rs lines 50-93) never fails on a line
matching the report shape: an `MPos` coordinate or `Bf` counter that does
not parse is replaced by 0 (or 0.0), an `MPos` with fewer than three
components and a `Bf` with fewer than two leave the field `None` rather
than producing a parse error. -/
theorem c10_report_parsing_total :
    (∀ s : String, reportShape s = true → (reportTryFrom s).isSome = true) ∧
    (reportTryFrom "<Idle|MPos:abc,1.5,2>").map Report.mpos =
      some (some (0, mkRat 3 2, 2)) ∧
    (reportTryFrom "<Idle|MPos:1,2>").map Report.mpos = some none ∧
    (reportTryFrom "<Idle|Bf:xx,128>").map Report.bf = some (some (0, 128)) ∧
    (reportTryFrom "<Idle|Bf:15>").map Report.bf = some none := by
  refine ⟨?_, by decide, by decide, by decide, by decide⟩
  intro s h
  unfold reportTryFrom
  rw [if_pos h]
  rfl

/-- Witness for C10 at a concrete report line. -/
theorem c10_report_parsing_total_w :
    (reportTryFrom "<Idle>").isSome = true :=
  c10_report_parsing_total.1 "<Idle>" (by decide)

end CncCtrl
